import Mathlib

/-!
# Verification of the krpcgo client core

A shallow embedding of the krpcgo repository's protocol plumbing:

* the byte-level primitives of the `golang/protobuf` `proto.Buffer` codec
  (varints, zigzag, fixed-width, length-delimited) that
  `lib/encode/encode.go` is built on;
* the reflective value codec `Marshal` / `Unmarshal` from
  `lib/encode/encode.go`, over an untyped value universe `GoVal` mirroring
  the Go values the codec accepts, and a type-hint universe `KType`
  mirroring the target types `Unmarshal` dispatches on;
* the message framing (`readMessageLength`) and the client plumbing
  (`SetDefaults`, `Close`, `connectRPC`, `connectStream`, `CallMultiple`,
  `Call`) from `internal/krpc.go` (`package krpcgo` part).

Machine integers are modelled as `Nat` / `Int` with explicit `% 2 ^ w`
where wrap-around matters; bytes are `Nat`s that are `< 256` on every
reachable path; byte strings are `List Nat`.  Floats are represented by
their IEEE-754 bit patterns (the codec only ever moves the bits via
`math.Float32bits` / `math.Float32frombits`, so this is exact).
-/

namespace KrpcGo

/-! ## Byte-level primitives of the proto.Buffer codec

`encodeVarint` mirrors `proto.Buffer.EncodeVarint`: base-128 little-endian
with the high bit of each byte as the continuation bit.  The structural
fuel is only a termination device: ten bytes always suffice for the
`uint64` arguments the Go code can pass. -/
def encodeVarintAux : Nat → Nat → List Nat
  | 0, _ => []
  | fuel + 1, n => if n < 128 then [n] else (n % 128 + 128) :: encodeVarintAux fuel (n / 128)

/-- `proto.Buffer.EncodeVarint` on a `uint64` (ten bytes always suffice). -/
def encodeVarint (n : Nat) : List Nat :=
  encodeVarintAux 10 n

/-- `proto.Buffer.DecodeVarint`: reads base-128 bytes, errors on unterminated
input and on varints that overflow 64 bits (a tenth byte must terminate and
be at most 1, exactly as the Go fast path checks). -/
def decodeVarintAux : List Nat → Nat → Nat → Option (Nat × List Nat)
  | [], _, _ => none
  | b :: rest, shift, acc =>
    if 64 ≤ shift then none
    else if b % 256 < 128 then
      if shift = 63 ∧ 2 ≤ b % 256 then none
      else some (acc + b % 128 * 2 ^ shift, rest)
    else decodeVarintAux rest (shift + 7) (acc + b % 128 * 2 ^ shift)

def decodeVarint (l : List Nat) : Option (Nat × List Nat) :=
  decodeVarintAux l 0 0

/-- Little-endian fixed-width encoding: `proto.Buffer.EncodeFixed32/64`
(with `k` = 4 resp. 8 bytes). -/
def encodeFixed : Nat → Nat → List Nat
  | 0, _ => []
  | k + 1, n => n % 256 :: encodeFixed k (n / 256)

/-- `proto.Buffer.DecodeFixed32/64`: reads `k` little-endian bytes. -/
def decodeFixed : Nat → List Nat → Option (Nat × List Nat)
  | 0, l => some (0, l)
  | _ + 1, [] => none
  | k + 1, b :: rest =>
    match decodeFixed k rest with
    | none => none
    | some (x, r) => some (b % 256 + 256 * x, r)

/-- `proto.Buffer.EncodeRawBytes` / `EncodeStringBytes`: varint length prefix
followed by the raw bytes. -/
def encodeRawBytes (l : List Nat) : List Nat :=
  encodeVarint l.length ++ l

/-- `proto.Buffer.DecodeRawBytes` / `DecodeStringBytes`: length prefix, then
exactly that many bytes (error if fewer remain). -/
def decodeRawBytes (l : List Nat) : Option (List Nat × List Nat) :=
  match decodeVarint l with
  | none => none
  | some (n, rest) => if n ≤ rest.length then some (rest.take n, rest.drop n) else none

/-- Zigzag encoding of an `int32` value, as computed by
`proto.Buffer.EncodeZigzag32` (`uint32(v) << 1 ^ uint32(int32(v) >> 31)`). -/
def zigzag32 (v : Int) : Nat :=
  if 0 ≤ v then (2 * v).toNat else (-2 * v - 1).toNat

/-- `proto.Buffer.DecodeZigzag32` followed by the `int32(u)` narrowing done in
`Unmarshal`: the decoded varint is truncated to 32 bits first. -/
def unzigzag32 (u : Nat) : Int :=
  if u % 2 ^ 32 % 2 = 0 then (u % 2 ^ 32 / 2 : Nat) else -(u % 2 ^ 32 / 2 : Nat) - 1

/-- Zigzag encoding of an `int64` value (`proto.Buffer.EncodeZigzag64`). -/
def zigzag64 (v : Int) : Nat :=
  if 0 ≤ v then (2 * v).toNat else (-2 * v - 1).toNat

/-- `proto.Buffer.DecodeZigzag64` followed by `int64(u)`. -/
def unzigzag64 (u : Nat) : Int :=
  if u % 2 ^ 64 % 2 = 0 then (u % 2 ^ 64 / 2 : Nat) else -(u % 2 ^ 64 / 2 : Nat) - 1

/-! ## Protobuf wire format

The messages `types.List`, `types.Set`, `types.Tuple`, `types.Dictionary` and
`types.DictionaryEntry` that the collection branches of `Marshal` /
`Unmarshal` delegate to `proto.Marshal` / `proto.Unmarshal` are made of
tag-prefixed fields.  We model the wire format directly: a field is a field
number together with a payload of one of the four wire types (0 = varint,
1 = 64-bit, 2 = length-delimited, 5 = 32-bit). -/
inductive FieldVal where
  | vint (n : Nat)
  | fix64 (n : Nat)
  | lenPayload (bs : List Nat)
  | fix32 (n : Nat)
deriving DecidableEq, Repr

abbrev ProtoField := Nat × FieldVal

/-- Serialization of one field: tag varint `num << 3 | wiretype`, then the
payload, exactly as `proto.Marshal` lays fields out. -/
def serField : ProtoField → List Nat
  | (num, .vint v) => encodeVarint (num * 8 + 0) ++ encodeVarint v
  | (num, .fix64 v) => encodeVarint (num * 8 + 1) ++ encodeFixed 8 v
  | (num, .lenPayload bs) => encodeVarint (num * 8 + 2) ++ encodeRawBytes bs
  | (num, .fix32 v) => encodeVarint (num * 8 + 5) ++ encodeFixed 4 v

/-- `proto.Marshal` serializes the fields of a message in order. -/
def serFields (fs : List ProtoField) : List Nat :=
  (fs.map serField).flatten

/-- Validity of a field as produced by `proto.Marshal` on a Go message:
positive field number below `2^29`, payload within its wire-type range. -/
def fieldOk : ProtoField → Bool
  | (num, .vint v) => 1 ≤ num && num < 2 ^ 29 && v < 2 ^ 64
  | (num, .fix64 v) => 1 ≤ num && num < 2 ^ 29 && v < 2 ^ 64
  | (num, .lenPayload bs) => 1 ≤ num && num < 2 ^ 29 && bs.length < 2 ^ 64
  | (num, .fix32 v) => 1 ≤ num && num < 2 ^ 29 && v < 2 ^ 32

/-- Parse one field off the front of the buffer, as `proto.Unmarshal` does:
tag varint, then a payload according to the wire type; field number 0 and
unknown wire types are rejected. -/
def parseOneField (l : List Nat) : Option (ProtoField × List Nat) :=
  match decodeVarint l with
  | none => none
  | some (tag, r1) =>
    if tag / 8 = 0 then none
    else if tag % 8 = 0 then
      match decodeVarint r1 with
      | none => none
      | some (v, r2) => some ((tag / 8, .vint v), r2)
    else if tag % 8 = 1 then
      match decodeFixed 8 r1 with
      | none => none
      | some (v, r2) => some ((tag / 8, .fix64 v), r2)
    else if tag % 8 = 2 then
      match decodeRawBytes r1 with
      | none => none
      | some (bs, r2) => some ((tag / 8, .lenPayload bs), r2)
    else if tag % 8 = 5 then
      match decodeFixed 4 r1 with
      | none => none
      | some (v, r2) => some ((tag / 8, .fix32 v), r2)
    else none

/-- `proto.Unmarshal`'s field loop, with structural fuel (one unit per
parsed field; `l.length` units always suffice because every field consumes
at least one byte). -/
def parseFieldsAux : Nat → List Nat → Option (List ProtoField)
  | _, [] => some []
  | 0, _ :: _ => none
  | fuel + 1, b :: rest =>
    match parseOneField (b :: rest) with
    | none => none
    | some (f, r) =>
      match parseFieldsAux fuel r with
      | none => none
      | some fs => some (f :: fs)

def parseFields (l : List Nat) : Option (List ProtoField) :=
  parseFieldsAux l.length l

/-! ### The collection messages

`types.List`, `types.Set` and `types.Tuple` all consist of a single
`repeated bytes items = 1` field; `types.Dictionary` is
`repeated DictionaryEntry entries = 1` with
`DictionaryEntry { bytes key = 1; bytes value = 2 }` (proto3, so an empty
`bytes` field is skipped on the wire). -/
/-- `proto.Marshal` of `types.List` / `types.Set` / `types.Tuple`: one
length-delimited field number 1 per item, in order. -/
def serItemsMsg (items : List (List Nat)) : List Nat :=
  serFields (items.map fun bs => (1, FieldVal.lenPayload bs))

/-- Collect the `repeated bytes items = 1` payloads from the parsed fields,
as `proto.Unmarshal` fills `Items`: unknown field numbers are skipped, a
field 1 of the wrong wire type is an error. -/
def extractItems : List ProtoField → Option (List (List Nat))
  | [] => some []
  | (1, FieldVal.lenPayload bs) :: rest =>
    match extractItems rest with
    | none => none
    | some items => some (bs :: items)
  | (1, _) :: _ => none
  | (_, _) :: rest => extractItems rest

/-- `proto.Unmarshal` into a message with a single `repeated bytes items = 1`
field. -/
def parseItemsMsg (l : List Nat) : Option (List (List Nat)) :=
  match parseFields l with
  | none => none
  | some fs => extractItems fs

/-- `proto.Marshal` of a `types.DictionaryEntry`: proto3 omits an empty
`bytes` field. -/
def serEntry (kb vb : List Nat) : List Nat :=
  (if kb = [] then [] else serField (1, FieldVal.lenPayload kb)) ++
  (if vb = [] then [] else serField (2, FieldVal.lenPayload vb))

/-- Read a singular `bytes` field with number `n` from the parsed fields:
last occurrence wins, absent means empty (the proto3 default). -/
def getBytesField : Nat → List ProtoField → List Nat → Option (List Nat)
  | _, [], acc => some acc
  | n, (m, FieldVal.lenPayload bs) :: rest, acc =>
    if m = n then getBytesField n rest bs else getBytesField n rest acc
  | n, (m, _) :: rest, acc =>
    if m = n then none else getBytesField n rest acc

/-- `proto.Unmarshal` into a `DictionaryEntry`. -/
def parseEntry (l : List Nat) : Option (List Nat × List Nat) :=
  match parseFields l with
  | none => none
  | some fs =>
    match getBytesField 1 fs [], getBytesField 2 fs [] with
    | some kb, some vb => some (kb, vb)
    | _, _ => none

/-! ## The value universe of `lib/encode/encode.go`

`Marshal` accepts (per its type switch and reflection cases): the scalar Go
types, `proto.Message` values, `service.Class` / `service.Enum` values,
slices, maps (a map whose value type is the empty struct is a Set, any other
map is a Dictionary), structs (Tuples), and single-level pointers.  `GoVal`
mirrors exactly this universe:

* floats are carried as their IEEE-754 bit patterns (`math.Float32bits` is
  the only thing the codec looks at);
* strings and byte slices are byte lists;
* a `proto.Message` is carried as its wire-format field list;
* a map is carried as its association list in iteration order — `setV`
  stands for `map[K]struct{}`, `dictV` for a map whose value type is not the
  empty struct;
* `ptrTo v` is a non-nil pointer whose element type is the dynamic type of
  `v`; `ptrNil e` is a nil pointer whose element type is a pointer type iff
  `e` (the code only looks at `mType.Elem().Kind()`). -/
mutual
inductive GoVal where
  | i32V (v : Int)
  | i64V (v : Int)
  | u32V (v : Nat)
  | u64V (v : Nat)
  | boolV (b : Bool)
  | f32V (bits : Nat)
  | f64V (bits : Nat)
  | strV (s : List Nat)
  | bytesV (s : List Nat)
  | classV (id : Nat)
  | enumV (v : Int)
  | listV (items : GoValList)
  | setV (items : GoValList)
  | dictV (entries : GoValPairs)
  | tupleV (fields : GoValList)
  | msgV (fields : List ProtoField)
  | ptrTo (target : GoVal)
  | ptrNil (elemIsPtr : Bool)
  deriving DecidableEq
inductive GoValList where
  | nil
  | cons (v : GoVal) (rest : GoValList)
  deriving DecidableEq
inductive GoValPairs where
  | nil
  | cons (k v : GoVal) (rest : GoValPairs)
  deriving DecidableEq
end

/-! The type hints `Unmarshal` dispatches on (the type of its pointer
argument): scalar kinds, class, enum, message, and the collection shapes. -/
mutual
inductive KType where
  | i32T
  | i64T
  | u32T
  | u64T
  | boolT
  | f32T
  | f64T
  | strT
  | bytesT
  | classT
  | enumT
  | listT (elem : KType)
  | setT (elem : KType)
  | dictT (key value : KType)
  | tupleT (fields : KTypeList)
  | msgT
  deriving DecidableEq
inductive KTypeList where
  | nil
  | cons (t : KType) (rest : KTypeList)
  deriving DecidableEq
end

/-- `mType.Elem().Kind() == reflect.Pointer` for the dynamic type of a
pointee. -/
def GoVal.isPtr : GoVal → Bool
  | .ptrTo _ => true
  | .ptrNil _ => true
  | _ => false

def KTypeList.len : KTypeList → Nat
  | .nil => 0
  | .cons _ rest => rest.len + 1

def GoValList.len : GoValList → Nat
  | .nil => 0
  | .cons _ rest => rest.len + 1

/-- Whether the Go type a hint stands for is itself a pointer type.  Every
`proto.Message` and every `service.Class` implementor in this repository is
a pointer type (`*types.Response`, `*remotetech.Antenna` — the interface
methods have pointer receivers, cf. `BaseClass` in the service package), so
a class- or message-typed struct field, set element or map key is a
pointer-typed component; every other hinted type (scalars, enums such as
`remotetech.Target`, strings, slices, maps, structs) is a value type. -/
def KType.isPtrType : KType → Bool
  | .classT => true
  | .msgT => true
  | _ => false

/-! `Decodable t`: the type hints whose targets `Unmarshal` can actually
decode.  The slice-element and dictionary-value branches of `Unmarshal`
unwrap a pointer-typed component type (`reflect.New(elemType.Elem())`,
encode.go:237-241 and 286-290), but the tuple-field, set-element and
dictionary-key branches call `reflect.New` on the component type directly
(encode.go:314, 265, 280), so a pointer-typed component there hands the
recursive call a pointer to pointer, which is rejected as an unsupported
type.  `Decodable` therefore excludes class and message components exactly
at those positions. -/

mutual
def Decodable : KType → Bool
  | .listT t => Decodable t
  | .setT t => !t.isPtrType && Decodable t
  | .dictT kt vt => !kt.isPtrType && Decodable kt && Decodable vt
  | .tupleT ts => DecodableFields ts
  | _ => true
def DecodableFields : KTypeList → Bool
  | .nil => true
  | .cons t ts => !t.isPtrType && Decodable t && DecodableFields ts
end

/-- Outcome of a `Marshal` call: bytes, a Go error, or a panic (the nil
dereference `value.Elem().Interface()` on a nil single-level pointer). -/
inductive MRes (α : Type) where
  | ok (val : α)
  | err (msg : String)
  | panic
  deriving DecidableEq

/-! `Marshal` from `lib/encode/encode.go`.  The scalar switch cases write
through a `proto.Buffer`; `proto.Message` is `proto.Marshal`; `Class` /
`Enum` re-enter on the `uint64` id resp. `int32` value (giving a varint
resp. zigzag varint directly); slices build a `types.List`, maps a
`types.Set` or `types.Dictionary`, structs a `types.Tuple`; a single-level
pointer re-enters on the pointee, a pointer to pointer falls through to the
"Unsupported type" error, and a nil single-level pointer panics. -/
mutual
def Marshal : GoVal → MRes (List Nat)
  | .i32V v => .ok (encodeVarint (zigzag32 v))
  | .i64V v => .ok (encodeVarint (zigzag64 v))
  | .u32V v => .ok (encodeVarint v)
  | .u64V v => .ok (encodeVarint v)
  | .boolV b => .ok (encodeVarint (if b then 1 else 0))
  | .f32V bits => .ok (encodeFixed 4 bits)
  | .f64V bits => .ok (encodeFixed 8 bits)
  | .strV s => .ok (encodeRawBytes s)
  | .bytesV s => .ok (encodeRawBytes s)
  | .classV id => .ok (encodeVarint id)
  | .enumV v => .ok (encodeVarint (zigzag32 v))
  | .msgV fs => .ok (serFields fs)
  | .listV items =>
    match MarshalList items with
    | .ok bss => .ok (serItemsMsg bss)
    | .err e => .err e
    | .panic => .panic
  | .setV items =>
    match MarshalList items with
    | .ok bss => .ok (serItemsMsg bss)
    | .err e => .err e
    | .panic => .panic
  | .dictV entries =>
    match MarshalPairs entries with
    | .ok pairs => .ok (serItemsMsg (pairs.map fun e => serEntry e.1 e.2))
    | .err e => .err e
    | .panic => .panic
  | .tupleV fields =>
    match MarshalList fields with
    | .ok bss => .ok (serItemsMsg bss)
    | .err e => .err e
    | .panic => .panic
  | .ptrTo v => if v.isPtr then .err "Unsupported type" else Marshal v
  | .ptrNil elemIsPtr => if elemIsPtr then .err "Unsupported type" else .panic
def MarshalList : GoValList → MRes (List (List Nat))
  | .nil => .ok []
  | .cons v rest =>
    match Marshal v with
    | .err e => .err e
    | .panic => .panic
    | .ok bs =>
      match MarshalList rest with
      | .err e => .err e
      | .panic => .panic
      | .ok bss => .ok (bs :: bss)
def MarshalPairs : GoValPairs → MRes (List (List Nat × List Nat))
  | .nil => .ok []
  | .cons k v rest =>
    match Marshal k with
    | .err e => .err e
    | .panic => .panic
    | .ok kb =>
      match Marshal v with
      | .err e => .err e
      | .panic => .panic
      | .ok vb =>
        match MarshalPairs rest with
        | .err e => .err e
        | .panic => .panic
        | .ok pairs => .ok ((kb, vb) :: pairs)
end

/-- `proto.Unmarshal` of the `repeated DictionaryEntry entries = 1` message:
parse every entry. -/
def parseEntries : List (List Nat) → Option (List (List Nat × List Nat))
  | [] => some []
  | bs :: rest =>
    match parseEntry bs with
    | none => none
    | some e =>
      match parseEntries rest with
      | none => none
      | some es => some (e :: es)

/-- Decoding `map[K]struct{}` installs the zero value (the empty struct) for
every decoded key. -/
def GoValList.toUnitPairs : GoValList → GoValPairs
  | .nil => .nil
  | .cons v rest => .cons v (GoVal.tupleV GoValList.nil) rest.toUnitPairs

/-! `Unmarshal` from `lib/encode/encode.go`, driven by the target type.
Scalar targets decode a prefix of the buffer through a `proto.Buffer`
(ignoring any trailing bytes, as the Go code does); a slice target parses a
`types.List` and decodes each item at the element type (unwrapping a
pointer-typed element type before `reflect.New`); a map target with an
empty-struct value type parses a `types.Set` (installing the zero value for
each key), any other map target parses a `types.Dictionary` (the value path
unwraps pointer-typed value types, the key path does not); a struct target
parses a `types.Tuple`, refuses a wrong arity, and decodes positionally.

The set-element, dictionary-key and tuple-field branches call
`reflect.New` on the component type with no pointer unwrap, so for a
pointer-typed component (every class and message type — `KType.isPtrType`)
the recursive call receives a pointer to pointer: it matches no case of the
type switch and the reflection switch rejects it with "Unsupported type".
That rejection is modelled inline at those three call sites. -/
mutual
def Unmarshal : KType → List Nat → Except String GoVal
  | .i32T, b =>
    match decodeVarint b with
    | none => .error "DecodeZigzag32: unexpected EOF"
    | some (u, _) => .ok (.i32V (unzigzag32 u))
  | .i64T, b =>
    match decodeVarint b with
    | none => .error "DecodeZigzag64: unexpected EOF"
    | some (u, _) => .ok (.i64V (unzigzag64 u))
  | .u32T, b =>
    match decodeVarint b with
    | none => .error "DecodeVarint: unexpected EOF"
    | some (u, _) => .ok (.u32V (u % 2 ^ 32))
  | .u64T, b =>
    match decodeVarint b with
    | none => .error "DecodeVarint: unexpected EOF"
    | some (u, _) => .ok (.u64V u)
  | .boolT, b =>
    match decodeVarint b with
    | none => .error "DecodeVarint: unexpected EOF"
    | some (u, _) => .ok (.boolV (u != 0))
  | .f32T, b =>
    match decodeFixed 4 b with
    | none => .error "DecodeFixed32: unexpected EOF"
    | some (u, _) => .ok (.f32V u)
  | .f64T, b =>
    match decodeFixed 8 b with
    | none => .error "DecodeFixed64: unexpected EOF"
    | some (u, _) => .ok (.f64V u)
  | .strT, b =>
    match decodeRawBytes b with
    | none => .error "DecodeStringBytes: unexpected EOF"
    | some (s, _) => .ok (.strV s)
  | .bytesT, b =>
    match decodeRawBytes b with
    | none => .error "DecodeRawBytes: unexpected EOF"
    | some (s, _) => .ok (.bytesV s)
  | .classT, b =>
    match decodeVarint b with
    | none => .error "DecodeVarint: unexpected EOF"
    | some (u, _) => .ok (.classV u)
  | .enumT, b =>
    match decodeVarint b with
    | none => .error "DecodeZigzag32: unexpected EOF"
    | some (u, _) => .ok (.enumV (unzigzag32 u))
  | .msgT, b =>
    match parseFields b with
    | none => .error "proto: cannot parse message"
    | some fs => .ok (.msgV fs)
  | .listT t, b =>
    match parseItemsMsg b with
    | none => .error "proto: cannot parse List"
    | some items =>
      match UnmarshalElems t items with
      | .error e => .error e
      | .ok vs => .ok (.listV vs)
  | .setT t, b =>
    match parseItemsMsg b with
    | none => .error "proto: cannot parse Set"
    | some items =>
      match UnmarshalSetElems t items with
      | .error e => .error e
      | .ok vs => .ok (.setV vs)
  | .dictT kt vt, b =>
    if vt = .tupleT .nil then
      -- isEmptyStruct(elemType): the target map is a Set of its keys
      match parseItemsMsg b with
      | none => .error "proto: cannot parse Set"
      | some items =>
        match UnmarshalSetElems kt items with
        | .error e => .error e
        | .ok ks => .ok (.dictV ks.toUnitPairs)
    else
      match parseItemsMsg b with
      | none => .error "proto: cannot parse Dictionary"
      | some entryBytes =>
        match parseEntries entryBytes with
        | none => .error "proto: cannot parse DictionaryEntry"
        | some pairs =>
          match UnmarshalPairs kt vt pairs with
          | .error e => .error e
          | .ok es => .ok (.dictV es)
  | .tupleT ts, b =>
    match parseItemsMsg b with
    | none => .error "proto: cannot parse Tuple"
    | some items =>
      if items.length ≠ ts.len then .error "Wrong tuple type"
      else
        match UnmarshalTuple ts items with
        | .error e => .error e
        | .ok vs => .ok (.tupleV vs)
  termination_by t _ => (sizeOf t, 0)
  decreasing_by
    all_goals apply Prod.Lex.left
    all_goals simp_arith
def UnmarshalElems : KType → List (List Nat) → Except String GoValList
  | _, [] => .ok .nil
  | t, bs :: rest =>
    match Unmarshal t bs with
    | .error e => .error e
    | .ok v =>
      match UnmarshalElems t rest with
      | .error e => .error e
      | .ok vs => .ok (.cons v vs)
  termination_by t items => (sizeOf t, items.length + 1)
  decreasing_by
    · apply Prod.Lex.right; omega
    · apply Prod.Lex.right; simp_arith
def UnmarshalSetElems : KType → List (List Nat) → Except String GoValList
  | _, [] => .ok .nil
  | t, bs :: rest =>
    -- `reflect.New(keyType)` with no pointer unwrap: a pointer-typed key
    -- type gives the recursive call a pointer to pointer, rejected as an
    -- unsupported type
    match (if t.isPtrType then .error "Unsupported type" else Unmarshal t bs) with
    | .error e => .error e
    | .ok v =>
      match UnmarshalSetElems t rest with
      | .error e => .error e
      | .ok vs => .ok (.cons v vs)
  termination_by t items => (sizeOf t, items.length + 1)
  decreasing_by
    · apply Prod.Lex.right; omega
    · apply Prod.Lex.right; simp_arith
def UnmarshalTuple : KTypeList → List (List Nat) → Except String GoValList
  | .nil, _ => .ok .nil
  | .cons _ _, [] => .error "Wrong tuple type"
  | .cons t ts, bs :: rest =>
    -- `reflect.New(tupleStruct.Field(i).Type())` with no pointer unwrap:
    -- a pointer-typed field type (class or message) is rejected as an
    -- unsupported type by the recursive call
    match (if t.isPtrType then .error "Unsupported type" else Unmarshal t bs) with
    | .error e => .error e
    | .ok v =>
      match UnmarshalTuple ts rest with
      | .error e => .error e
      | .ok vs => .ok (.cons v vs)
  termination_by ts items => (sizeOf ts, items.length + 1)
  decreasing_by
    · apply Prod.Lex.left; simp_arith
    · apply Prod.Lex.left; simp_arith
def UnmarshalPairs : KType → KType → List (List Nat × List Nat) → Except String GoValPairs
  | _, _, [] => .ok .nil
  | kt, vt, (kb, vb) :: rest =>
    -- key: `reflect.New(keyType)` with no pointer unwrap (pointer-typed key
    -- types are rejected); value: the pointer-typed case is unwrapped first,
    -- so the value decodes at the element type
    match (if kt.isPtrType then .error "Unsupported type" else Unmarshal kt kb) with
    | .error e => .error e
    | .ok k =>
      match Unmarshal vt vb with
      | .error e => .error e
      | .ok v =>
        match UnmarshalPairs kt vt rest with
        | .error e => .error e
        | .ok es => .ok (.cons k v es)
  termination_by kt vt pairs => (sizeOf kt + sizeOf vt, pairs.length + 1)
  decreasing_by
    · apply Prod.Lex.left
      have : 0 < sizeOf vt := by cases vt <;> simp_arith
      omega
    · apply Prod.Lex.left
      have : 0 < sizeOf kt := by cases kt <;> simp_arith
      omega
    · apply Prod.Lex.right; simp_arith
end

/-! ## Well-typedness

`WellTyped t v` says that the Go value `v` inhabits the Go type hinted at by
`t`: machine-integer ranges hold, bytes are bytes, a tuple value has the
fields of its struct type, the keys of a map are distinct, and every
(sub)value serializes to fewer than `2^64` bytes (any Go value does — a
slice holds at most `2^63 - 1` elements — and nested length prefixes must
fit a `uint64` varint). -/
def marshalLenOk (v : GoVal) : Bool :=
  match Marshal v with
  | .ok bs => decide (bs.length < 2 ^ 64)
  | _ => false

def GoValList.memV : GoVal → GoValList → Bool
  | _, .nil => false
  | x, .cons v rest => decide (x = v) || GoValList.memV x rest

/-- Distinctness of the elements of a Go map (set) in iteration order. -/
def GoValList.nodupV : GoValList → Bool
  | .nil => true
  | .cons v rest => !(GoValList.memV v rest) && rest.nodupV

def GoValPairs.keyMem : GoVal → GoValPairs → Bool
  | _, .nil => false
  | x, .cons k _ rest => decide (x = k) || GoValPairs.keyMem x rest

/-- Distinctness of the keys of a Go map in iteration order. -/
def GoValPairs.keysNodup : GoValPairs → Bool
  | .nil => true
  | .cons k _ rest => !(GoValPairs.keyMem k rest) && rest.keysNodup

mutual
def WellTyped : KType → GoVal → Bool
  | .i32T, .i32V v => decide (-(2 ^ 31) ≤ v) && decide (v < 2 ^ 31)
  | .i64T, .i64V v => decide (-(2 ^ 63) ≤ v) && decide (v < 2 ^ 63)
  | .u32T, .u32V v => decide (v < 2 ^ 32)
  | .u64T, .u64V v => decide (v < 2 ^ 64)
  | .boolT, .boolV _ => true
  | .f32T, .f32V bits => decide (bits < 2 ^ 32)
  | .f64T, .f64V bits => decide (bits < 2 ^ 64)
  | .strT, .strV s => s.all (fun b => decide (b < 256)) && decide (s.length < 2 ^ 63)
  | .bytesT, .bytesV s => s.all (fun b => decide (b < 256)) && decide (s.length < 2 ^ 63)
  | .classT, .classV id => decide (id < 2 ^ 64)
  | .enumT, .enumV v => decide (-(2 ^ 31) ≤ v) && decide (v < 2 ^ 31)
  | .msgT, .msgV fs => fs.all fieldOk && marshalLenOk (.msgV fs)
  | .listT t, .listV items => WellTypedList t items && marshalLenOk (.listV items)
  | .setT t, .setV items =>
    WellTypedList t items && items.nodupV && marshalLenOk (.setV items)
  | .dictT kt vt, .dictV entries =>
    decide (vt ≠ .tupleT .nil) && WellTypedPairs kt vt entries &&
      entries.keysNodup && marshalLenOk (.dictV entries)
  | .tupleT ts, .tupleV fields =>
    WellTypedTuple ts fields && marshalLenOk (.tupleV fields)
  | _, _ => false
def WellTypedList : KType → GoValList → Bool
  | _, .nil => true
  | t, .cons v rest => WellTyped t v && WellTypedList t rest
def WellTypedTuple : KTypeList → GoValList → Bool
  | .nil, .nil => true
  | .cons t ts, .cons v rest => WellTyped t v && WellTypedTuple ts rest
  | _, _ => false
def WellTypedPairs : KType → KType → GoValPairs → Bool
  | _, _, .nil => true
  | kt, vt, .cons k v rest =>
    WellTyped kt k && WellTyped vt v && WellTypedPairs kt vt rest
end

/-! ## Framing: `readMessageLength` (internal/krpc.go)

The framing reader accumulates bytes one at a time and retries the free
function `proto.DecodeVarint` on the accumulated prefix after each read. -/
/-- The free function `proto.DecodeVarint(buf) = (x, n)`: up to ten base-128
bytes (`shift` 0,7,…,63); returns `(0, 0)` when the buffer runs out or the
varint needs more than ten bytes; bits at and above 64 are discarded by the
`uint64` accumulation. -/
def protoDecodeVarintAux : List Nat → Nat → Nat → Nat → Nat × Nat
  | [], _, _, _ => (0, 0)
  | b :: rest, shift, x, n =>
    if 64 ≤ shift then (0, 0)
    else
      if b % 256 < 128 then ((x + b % 128 * 2 ^ shift % 2 ^ 64) % 2 ^ 64, n + 1)
      else protoDecodeVarintAux rest (shift + 7) ((x + b % 128 * 2 ^ shift % 2 ^ 64) % 2 ^ 64) (n + 1)

def protoDecodeVarint (buf : List Nat) : Nat × Nat :=
  protoDecodeVarintAux buf 0 0 0

/-- Result of `readMessageLength` on a byte stream: the decoded length plus
the unread remainder of the stream, or the read error when the stream ends
inside the loop, or the protocol error
`"Message does not appear to start with length"`; in every case the unread
remainder witnesses how many bytes were consumed. -/
inductive ReadLenResult where
  | ok (length : Nat) (rest : List Nat)
  | readErr (rest : List Nat)
  | protocolErr (rest : List Nat)
  deriving DecidableEq, Repr

/-- `readMessageLength` from internal/krpc.go: while fewer than 16 bytes have
been accumulated, read one byte (a read on an exhausted stream is the io
error path), append it, and retry `proto.DecodeVarint` on the accumulated
bytes; once 16 bytes have been accumulated without `DecodeVarint` accepting
them, fail with the protocol error. -/
def readMessageLengthAux : List Nat → List Nat → ReadLenResult
  | [], raw => if raw.length < 16 then .readErr [] else .protocolErr []
  | b :: rest, raw =>
    if raw.length < 16 then
      if 0 < (protoDecodeVarint (raw ++ [b])).2 then
        .ok (protoDecodeVarint (raw ++ [b])).1 rest
      else readMessageLengthAux rest (raw ++ [b])
    else .protocolErr (b :: rest)

def readMessageLength (stream : List Nat) : ReadLenResult :=
  readMessageLengthAux stream []

/-! ## Client plumbing (internal/krpc.go, package krpcgo) -/
/-- `KRPCClientConfig`: string-valued keys, the empty string means unset. -/
structure KRPCClientConfig where
  Host : String
  RPCPort : String
  StreamPort : String
  ClientName : String
  RPCOnly : Bool
  deriving DecidableEq, Repr

/-- The four environment variables `SetDefaults` consults; `none` models an
unset variable (`os.LookupEnv` reports `ok = false`), `some s` a variable set
to `s` — possibly the empty string, which `LookupEnv` reports as present. -/
structure Env where
  krpcHost : Option String
  krpcPort : Option String
  krpcStreamPort : Option String
  krpcClientname : Option String
  deriving DecidableEq, Repr

/-- `if cfg.X, ok = os.LookupEnv(name); !ok { cfg.X = default }`. -/
def lookupEnvOr (v : Option String) (dflt : String) : String :=
  match v with
  | some s => s
  | none => dflt

/-- `KRPCClientConfig.SetDefaults` from internal/krpc.go: each key that is
unset (empty) is taken from the corresponding environment variable when
present, otherwise set to its default; `RPCOnly` is untouched. -/
def SetDefaults (env : Env) (cfg : KRPCClientConfig) : KRPCClientConfig :=
  { cfg with
    Host := if cfg.Host = "" then lookupEnvOr env.krpcHost "localhost" else cfg.Host
    RPCPort := if cfg.RPCPort = "" then lookupEnvOr env.krpcPort "50000" else cfg.RPCPort
    StreamPort :=
      if cfg.StreamPort = "" then lookupEnvOr env.krpcStreamPort "50001"
      else cfg.StreamPort
    ClientName :=
      if cfg.ClientName = "" then lookupEnvOr env.krpcClientname "krpc-go"
      else cfg.ClientName }

/-- `KRPCClient.Close` from internal/krpc.go: the results of
`StreamClient.Close()` (when a stream client exists) and of `conn.Close()`
are appended to the `errors` slice unconditionally — a `nil` error is
appended too — and the function reports failure whenever the slice is
non-empty.  `streamClient = none` models `c.StreamClient == nil`;
`some res` models a stream client whose `Close` returned `res`
(`none` = nil error). -/
def Close (streamClient : Option (Option String)) (connCloseErr : Option String) :
    Except String Unit :=
  let errors : List (Option String) :=
    (match streamClient with
     | some res => [res]
     | none => []) ++ [connCloseErr]
  if 0 < errors.length then .error "Failed to close connection(s)" else .ok ()

/-- `types.ConnectionResponse.Status` (`OK` is the protobuf zero value). -/
inductive ConnStatus where
  | ok
  | malformedMessage
  | timeout
  | wrongType
  deriving DecidableEq, Repr

structure ConnectionResponse where
  status : ConnStatus
  message : String
  clientIdentifier : List Nat
  deriving DecidableEq, Repr

/-- `proto.Unmarshal` of an empty buffer yields the zero message. -/
def zeroConnectionResponse : ConnectionResponse :=
  { status := .ok, message := "", clientIdentifier := [] }

/-- Outcomes of the handshake steps, as the transport delivers them: a dial
error, a send error, a receive error, and the result of
`proto.Unmarshal` on the received bytes (only consulted when the receive
succeeded).  `partialResp` is the unspecified contents the response struct is
left with when `proto.Unmarshal` fails midway. -/
structure HandshakeEnv where
  dialErr : Option String
  sendErr : Option String
  recvErr : Option String
  parseOutcome : Except String ConnectionResponse
  partialResp : ConnectionResponse
  deriving Repr

/-- `connectRPC` from internal/krpc.go: every failing step returns its
(wrapped) error; on a non-OK status the handshake fails with the response
message; on success the 16-byte client identifier is stored (`copy` into the
zeroed array truncates or zero-pads). -/
def connectRPC (env : HandshakeEnv) : Except String (List Nat) :=
  match env.dialErr with
  | some e => .error e
  | none =>
    match env.sendErr with
    | some e => .error e
    | none =>
      match env.recvErr with
      | some e => .error e
      | none =>
        match env.parseOutcome with
        | .error e => .error e
        | .ok resp =>
          if resp.status ≠ ConnStatus.ok then .error resp.message
          else
            .ok (resp.clientIdentifier.take 16 ++
              List.replicate (16 - resp.clientIdentifier.length) 0)

inductive StreamConnectOutcome where
  | panicked
  | returned (result : Option String) (loopStarted : Bool)
  deriving DecidableEq, Repr

/-- `connectStream` from internal/krpc.go.  Every `tracerr.Wrap(err)` /
`tracerr.Errorf(resp.Message)` result in this function is discarded — there
is no `return` on any failure path.  Consequences, faithfully modelled:
a dial failure leaves `conn` nil and the subsequent `send(conn, out)`
dereferences the nil interface (panic); after a failed receive `in` is nil
and `proto.Unmarshal(nil, &resp)` succeeds with the zero response
(status OK); a parse failure leaves `resp` in an unspecified partial state;
the status check discards its error; the function then unconditionally
starts the stream loop and returns nil. -/
def connectStream (env : HandshakeEnv) : StreamConnectOutcome :=
  match env.dialErr with
  | some _ => .panicked
  | none =>
    let resp : ConnectionResponse :=
      match env.recvErr with
      | some _ => zeroConnectionResponse
      | none =>
        match env.parseOutcome with
        | .ok r => r
        | .error _ => env.partialResp
    let _ := resp.status ≠ ConnStatus.ok
    .returned none true

/-- `types.Error`. -/
structure KRPCError where
  service : String
  name : String
  description : String
  stackTrace : String
  deriving DecidableEq, Repr

/-- `types.ProcedureResult`. -/
structure ProcedureResult where
  value : List Nat
  error : Option KRPCError
  deriving DecidableEq, Repr

/-- `types.Response`. -/
structure Response where
  error : Option KRPCError
  results : List ProcedureResult
  deriving DecidableEq, Repr

/-- Outcome of the marshal / send / receive / `proto.Unmarshal` pipeline of
`CallMultiple`, identical for `Call(c)` and `CallMultiple([c])` since `Call`
forwards its argument as the one-element batch. -/
inductive WireOutcome where
  | marshalErr (e : String)
  | sendErr (e : String)
  | recvErr (e : String)
  | parseErr (e : String)
  | response (resp : Response)
  deriving DecidableEq, Repr

inductive CallFailure where
  | transport (e : String)
  | rpcErr (e : KRPCError)
  deriving DecidableEq, Repr

/-- `CallMultiple` from internal/krpc.go, after the wire exchange: transport
and parse failures propagate; a parsed `Response` with `Error != nil` fails
the whole batch with that error; otherwise the per-call `Results` are
returned as-is. -/
def CallMultiple (w : WireOutcome) : Except CallFailure (List ProcedureResult) :=
  match w with
  | .marshalErr e => .error (.transport e)
  | .sendErr e => .error (.transport e)
  | .recvErr e => .error (.transport e)
  | .parseErr e => .error (.transport e)
  | .response resp =>
    match resp.error with
    | some e => .error (.rpcErr e)
    | none => .ok resp.results

inductive CallOutcome where
  | panicked
  | failed (e : CallFailure)
  | ok (r : ProcedureResult)
  deriving DecidableEq, Repr

/-- `Call` from internal/krpc.go: delegate to `CallMultiple` with the
singleton batch, propagate its error; then `r := resp[0]` — an index-0 access
with no emptiness check, which panics on an empty result list — and fail if
`r.Error != nil`, otherwise return `r`. -/
def Call (w : WireOutcome) : CallOutcome :=
  match CallMultiple w with
  | .error e => .failed e
  | .ok resps =>
    match resps with
    | [] => .panicked
    | r :: _ =>
      match r.error with
      | some e => .failed (.rpcErr e)
      | none => .ok r

/-! ## Concrete values used by the claim witnesses -/
/-- `dict<string, list<tuple<string, u64>>>`, the nested shape the spec's
round-trip scenarios require. -/
def c1Type : KType :=
  .dictT .strT (.listT (.tupleT (.cons .strT (.cons .u64T .nil))))

def c1Value : GoVal :=
  .dictV (.cons (.strV [97])
    (.listV (.cons (.tupleV (.cons (.strV [107, 101]) (.cons (.u64V 7) .nil)))
      (.cons (.tupleV (.cons (.strV []) (.cons (.u64V 18446744073709551615) .nil)))
        .nil)))
    (.cons (.strV [98]) (.listV .nil) .nil))

/-- `tuple<message>`: a one-field struct whose field is a (pointer-typed)
protobuf message — encodable, but the tuple decode branch rejects it. -/
def c1BadType : KType := .tupleT (.cons .msgT .nil)

def c1BadValue : GoVal := .tupleV (.cons (.msgV []) .nil)

/-- Sixteen continuation bytes followed by a terminator and one extra byte. -/
def c2Stream : List Nat := List.replicate 16 128 ++ [0, 42]

def c2Pre : List Nat := List.replicate 16 200

def c3Err : KRPCError :=
  { service := "SpaceCenter"
    name := "ArgumentException"
    description := "boom"
    stackTrace := "" }

def c3Result : ProcedureResult := { value := [], error := some c3Err }

def c3Wire : WireOutcome := .response { error := none, results := [c3Result] }

def c3OkResult : ProcedureResult := { value := [42], error := none }

def c3OkWire : WireOutcome := .response { error := none, results := [c3OkResult] }

def c5EmptyEnv : Env :=
  { krpcHost := none
    krpcPort := none
    krpcStreamPort := none
    krpcClientname := none }

def c5EmptyCfg : KRPCClientConfig :=
  { Host := ""
    RPCPort := ""
    StreamPort := ""
    ClientName := ""
    RPCOnly := false }

def c6BadResp : ConnectionResponse :=
  { status := .malformedMessage
    message := "connection refused: wrong type"
    clientIdentifier := [] }

def c6BadEnv : HandshakeEnv :=
  { dialErr := none
    sendErr := none
    recvErr := none
    parseOutcome := .ok c6BadResp
    partialResp := zeroConnectionResponse }

def c6DialEnv : HandshakeEnv :=
  { dialErr := some "dial tcp: connection refused"
    sendErr := none
    recvErr := none
    parseOutcome := .ok zeroConnectionResponse
    partialResp := zeroConnectionResponse }

def c7Err : KRPCError :=
  { service := "KRPC"
    name := "TimeoutException"
    description := "tick"
    stackTrace := "" }

def c7Resp : Response :=
  { error := none
    results := [{ value := [7], error := none }, { value := [], error := some c7Err }] }

def c8Fields : GoValList := .cons (.strV [120]) (.cons (.u64V 7) .nil)

def c8Types : KTypeList := .cons .strT (.cons .u64T .nil)

def c8Target : KTypeList := .cons .strT .nil

/-- `tuple<class>` at matching arity: the wire Tuple carries `k = n = 1`
items, yet the (pointer-typed) class component is rejected. -/
def c8BadTs : KTypeList := .cons .classT .nil

def c8BadFields : GoValList := .cons (.classV 7) .nil

def c9Result : ProcedureResult := { value := [1], error := none }

def c9Wire : WireOutcome := .response { error := none, results := [c9Result] }

/-! ## Theorems -/

/-! ### Round-trip lemmas for the primitives -/
theorem encodeVarintAux_lt (fuel n : Nat) (h : n < 128) :
    encodeVarintAux (fuel + 1) n = [n] := by
  simp [encodeVarintAux, h]

theorem encodeVarintAux_ge (fuel n : Nat) (h : ¬ n < 128) :
    encodeVarintAux (fuel + 1) n = (n % 128 + 128) :: encodeVarintAux fuel (n / 128) := by
  rw [encodeVarintAux, if_neg h]

theorem decodeVarintAux_encode :
    ∀ (fuel n shift acc : Nat) (rest : List Nat),
      n < 2 ^ (7 * (fuel + 1)) → n < 2 ^ (64 - shift) → shift % 7 = 0 → shift ≤ 63 →
      decodeVarintAux (encodeVarintAux (fuel + 1) n ++ rest) shift acc =
        some (acc + n * 2 ^ shift, rest) := by
  intro fuel
  induction fuel with
  | zero =>
    intro n shift acc rest hfuel hn hmod hle
    have h128 : n < 128 := by
      have : (2 : Nat) ^ (7 * (0 + 1)) = 128 := by norm_num
      omega
    have h63 : shift = 63 → n < 2 := by
      intro h; subst h
      have : (2 : Nat) ^ (64 - 63) = 2 := by norm_num
      omega
    rw [encodeVarintAux_lt 0 n h128]
    simp only [List.cons_append, List.nil_append, decodeVarintAux]
    have hb : n % 256 = n := Nat.mod_eq_of_lt (by omega)
    have hb' : n % 128 = n := Nat.mod_eq_of_lt h128
    rw [hb, hb']
    split_ifs with h1 h2 <;> first
      | rfl
      | (exfalso; omega)
  | succ fuel ih =>
    intro n shift acc rest hfuel hn hmod hle
    by_cases h128 : n < 128
    · have h63 : shift = 63 → n < 2 := by
        intro h; subst h
        have : (2 : Nat) ^ (64 - 63) = 2 := by norm_num
        omega
      rw [encodeVarintAux_lt (fuel + 1) n h128]
      simp only [List.cons_append, List.nil_append, decodeVarintAux]
      have hb : n % 256 = n := Nat.mod_eq_of_lt (by omega)
      have hb' : n % 128 = n := Nat.mod_eq_of_lt h128
      rw [hb, hb']
      split_ifs with h1 h2 <;> first
        | rfl
        | (exfalso; omega)
    · -- continuation byte
      have hge : 128 ≤ n := by omega
      have hshift_small : shift ≤ 56 := by
        by_contra hcon
        have hs63 : shift = 63 := by omega
        subst hs63
        have : (2 : Nat) ^ (64 - 63) = 2 := by norm_num
        omega
      rw [encodeVarintAux_ge (fuel + 1) n h128]
      simp only [List.cons_append, decodeVarintAux]
      have hmod256 : (n % 128 + 128) % 256 = n % 128 + 128 := by omega
      have hmod128 : (n % 128 + 128) % 128 = n % 128 := by omega
      rw [hmod256, hmod128]
      have hval : acc + n * 2 ^ shift =
          acc + n % 128 * 2 ^ shift + n / 128 * 2 ^ (shift + 7) := by
        have hsplit : 128 * (n / 128) + n % 128 = n := Nat.div_add_mod n 128
        have hpow : (2 : Nat) ^ (shift + 7) = 2 ^ shift * 128 := by
          rw [pow_add]; norm_num
        conv_lhs => rw [← hsplit]
        rw [hpow]
        ring
      split_ifs with h1 h2 h3 <;> try (exfalso; omega)
      rw [hval]
      exact ih (n / 128) (shift + 7) (acc + n % 128 * 2 ^ shift) rest
        (by
          have heq : (2 : Nat) ^ (7 * (fuel + 1 + 1)) = 2 ^ (7 * (fuel + 1)) * 128 := by
            rw [show 7 * (fuel + 1 + 1) = 7 * (fuel + 1) + 7 by ring, pow_add]
            norm_num
          rw [heq] at hfuel
          exact Nat.div_lt_of_lt_mul (by omega))
        (by
          have heq : (2 : Nat) ^ (64 - shift) = 2 ^ (64 - (shift + 7)) * 128 := by
            rw [show 64 - shift = 64 - (shift + 7) + 7 by omega, pow_add]
            norm_num
          rw [heq] at hn
          exact Nat.div_lt_of_lt_mul (by omega))
        (by omega) (by omega)

/-- `DecodeVarint (EncodeVarint n ++ rest) = (n, rest)` for every `uint64`. -/
theorem decodeVarint_encodeVarint (n : Nat) (rest : List Nat) (hn : n < 2 ^ 64) :
    decodeVarint (encodeVarint n ++ rest) = some (n, rest) := by
  have := decodeVarintAux_encode 9 n 0 0 rest (by norm_num; omega) (by simpa using hn)
    (by norm_num) (by norm_num)
  simpa [decodeVarint, encodeVarint] using this

theorem decodeVarintAux_shrink :
    ∀ (l : List Nat) (shift acc n : Nat) (r : List Nat),
      decodeVarintAux l shift acc = some (n, r) → r.length < l.length := by
  intro l
  induction l with
  | nil => intro shift acc n r h; simp [decodeVarintAux] at h
  | cons b rest ih =>
    intro shift acc n r h
    simp only [decodeVarintAux] at h
    split at h
    · exact absurd h (by simp)
    · split at h
      · split at h
        · exact absurd h (by simp)
        · simp only [Option.some.injEq, Prod.mk.injEq] at h
          obtain ⟨-, rfl⟩ := h
          simp
      · have := ih _ _ _ _ h
        simp only [List.length_cons]
        omega

theorem decodeVarint_shrink (l : List Nat) (n : Nat) (r : List Nat)
    (h : decodeVarint l = some (n, r)) : r.length < l.length :=
  decodeVarintAux_shrink l 0 0 n r h

theorem decodeFixed_encodeFixed (k : Nat) :
    ∀ (v : Nat) (rest : List Nat), v < 256 ^ k →
      decodeFixed k (encodeFixed k v ++ rest) = some (v, rest) := by
  induction k with
  | zero =>
    intro v rest hv
    have : v = 0 := by simpa using hv
    subst this
    simp [encodeFixed, decodeFixed]
  | succ k ih =>
    intro v rest hv
    have hdiv : v / 256 < 256 ^ k := by
      rw [pow_succ] at hv
      exact Nat.div_lt_of_lt_mul (by omega)
    simp only [encodeFixed, List.cons_append, decodeFixed, List.append_eq]
    rw [ih (v / 256) rest hdiv]
    show some (v % 256 % 256 + 256 * (v / 256), rest) = some (v, rest)
    have h2 : v % 256 % 256 + 256 * (v / 256) = v := by omega
    rw [h2]

theorem decodeFixed_length (k : Nat) :
    ∀ (l : List Nat) (x : Nat) (r : List Nat),
      decodeFixed k l = some (x, r) → r.length + k = l.length := by
  induction k with
  | zero => intro l x r h; simp only [decodeFixed, Option.some.injEq, Prod.mk.injEq] at h
            obtain ⟨-, rfl⟩ := h; simp
  | succ k ih =>
    intro l x r h
    match l with
    | [] => simp [decodeFixed] at h
    | b :: rest =>
      simp only [decodeFixed] at h
      match hd : decodeFixed k rest with
      | none => rw [hd] at h; simp at h
      | some (x', r') =>
        rw [hd] at h
        simp only [Option.some.injEq, Prod.mk.injEq] at h
        obtain ⟨-, rfl⟩ := h
        have := ih rest x' r' hd
        simp only [List.length_cons]
        omega

theorem decodeRawBytes_encodeRawBytes (l rest : List Nat) (hl : l.length < 2 ^ 64) :
    decodeRawBytes (encodeRawBytes l ++ rest) = some (l, rest) := by
  simp only [decodeRawBytes, encodeRawBytes, List.append_assoc,
    decodeVarint_encodeVarint l.length (l ++ rest) hl]
  rw [if_pos (by simp), List.take_left, List.drop_left]

theorem decodeRawBytes_shrink (l : List Nat) (bs r : List Nat)
    (h : decodeRawBytes l = some (bs, r)) : r.length < l.length := by
  unfold decodeRawBytes at h
  match hv : decodeVarint l with
  | none => rw [hv] at h; simp at h
  | some (n, rest) =>
    rw [hv] at h
    have hlen := decodeVarint_shrink l n rest hv
    have h2 : (if n ≤ rest.length then some (rest.take n, rest.drop n) else none) =
        some (bs, r) := h
    by_cases hle : n ≤ rest.length
    · rw [if_pos hle] at h2
      simp only [Option.some.injEq, Prod.mk.injEq] at h2
      obtain ⟨-, rfl⟩ := h2
      simp only [List.length_drop]
      omega
    · rw [if_neg hle] at h2
      simp at h2

theorem unzigzag32_zigzag32 (v : Int) (hlo : -(2 ^ 31) ≤ v) (hhi : v < 2 ^ 31) :
    unzigzag32 (zigzag32 v) = v := by
  unfold zigzag32 unzigzag32
  split_ifs <;> omega

theorem unzigzag64_zigzag64 (v : Int) (hlo : -(2 ^ 63) ≤ v) (hhi : v < 2 ^ 63) :
    unzigzag64 (zigzag64 v) = v := by
  unfold zigzag64 unzigzag64
  split_ifs <;> omega

theorem zigzag32_lt (v : Int) (hlo : -(2 ^ 31) ≤ v) (hhi : v < 2 ^ 31) :
    zigzag32 v < 2 ^ 32 := by
  simp only [zigzag32]
  split <;> omega

theorem zigzag64_lt (v : Int) (hlo : -(2 ^ 63) ≤ v) (hhi : v < 2 ^ 63) :
    zigzag64 v < 2 ^ 64 := by
  simp only [zigzag64]
  split <;> omega

theorem parseOneField_shrink (l : List Nat) (f : ProtoField) (r : List Nat)
    (h : parseOneField l = some (f, r)) : r.length < l.length := by
  unfold parseOneField at h
  match hv : decodeVarint l with
  | none => rw [hv] at h; simp at h
  | some (tag, r1) =>
    simp only [hv] at h
    have h1 := decodeVarint_shrink l tag r1 hv
    split_ifs at h <;> try simp at h
    all_goals first
    | (match hv2 : decodeVarint r1 with
       | none => rw [hv2] at h; simp at h
       | some (v, r2) =>
         simp only [hv2, Option.some.injEq, Prod.mk.injEq] at h
         obtain ⟨-, rfl⟩ := h
         have := decodeVarint_shrink r1 v r2 hv2
         omega)
    | (match hv2 : decodeFixed 8 r1 with
       | none => rw [hv2] at h; simp at h
       | some (v, r2) =>
         simp only [hv2, Option.some.injEq, Prod.mk.injEq] at h
         obtain ⟨-, rfl⟩ := h
         have := decodeFixed_length 8 r1 v r2 hv2
         omega)
    | (match hv2 : decodeRawBytes r1 with
       | none => rw [hv2] at h; simp at h
       | some (bs, r2) =>
         simp only [hv2, Option.some.injEq, Prod.mk.injEq] at h
         obtain ⟨-, rfl⟩ := h
         have := decodeRawBytes_shrink r1 bs r2 hv2
         omega)
    | (match hv2 : decodeFixed 4 r1 with
       | none => rw [hv2] at h; simp at h
       | some (v, r2) =>
         simp only [hv2, Option.some.injEq, Prod.mk.injEq] at h
         obtain ⟨-, rfl⟩ := h
         have := decodeFixed_length 4 r1 v r2 hv2
         omega)

theorem parseFieldsAux_fuel :
    ∀ (fuelA fuelB : Nat) (l : List Nat), l.length ≤ fuelA → l.length ≤ fuelB →
      parseFieldsAux fuelA l = parseFieldsAux fuelB l := by
  intro fuelA
  induction fuelA with
  | zero =>
    intro fuelB l hA hB
    have : l = [] := by
      cases l with
      | nil => rfl
      | cons b r => simp at hA
    subst this
    cases fuelB <;> rfl
  | succ fuelA ih =>
    intro fuelB l hA hB
    cases l with
    | nil => cases fuelB <;> rfl
    | cons b r =>
      cases fuelB with
      | zero => simp at hB
      | succ fuelB =>
        show (match parseOneField (b :: r) with
          | none => none
          | some (f, r') =>
            match parseFieldsAux fuelA r' with
            | none => none
            | some fs => some (f :: fs)) =
          (match parseOneField (b :: r) with
          | none => none
          | some (f, r') =>
            match parseFieldsAux fuelB r' with
            | none => none
            | some fs => some (f :: fs))
        match hp : parseOneField (b :: r) with
        | none => rfl
        | some (f, r') =>
          have hs := parseOneField_shrink (b :: r) f r' hp
          simp only [List.length_cons] at hs hA hB
          simp only [hp]
          rw [ih fuelB r' (by omega) (by omega)]

theorem parseFields_nil : parseFields [] = some [] := rfl

theorem encodeVarintAux_ne_nil (fuel n : Nat) : encodeVarintAux (fuel + 1) n ≠ [] := by
  by_cases h : n < 128
  · rw [encodeVarintAux_lt fuel n h]; simp
  · rw [encodeVarintAux_ge fuel n h]; simp

theorem serField_ne_nil (f : ProtoField) : serField f ≠ [] := by
  match f with
  | (num, .vint v) | (num, .fix64 v) | (num, .lenPayload v) | (num, .fix32 v) =>
    simp only [serField, encodeVarint]
    intro hcon
    exact encodeVarintAux_ne_nil 9 _ (List.append_eq_nil.mp hcon).1

theorem parseOneField_serField (f : ProtoField) (rest : List Nat)
    (hf : fieldOk f = true) :
    parseOneField (serField f ++ rest) = some (f, rest) := by
  match f with
  | (num, .vint v) =>
    simp only [fieldOk, Bool.and_eq_true, decide_eq_true_eq] at hf
    obtain ⟨⟨h1, h2⟩, h3⟩ := hf
    have htag : num * 8 + 0 < 2 ^ 64 := by
      have : (2 : Nat) ^ 29 * 8 ≤ 2 ^ 64 := by norm_num
      omega
    simp only [serField, List.append_assoc]
    unfold parseOneField
    simp only [decodeVarint_encodeVarint (num * 8 + 0) _ htag]
    rw [if_neg (by omega : ¬ (num * 8 + 0) / 8 = 0), if_pos (by omega : (num * 8 + 0) % 8 = 0)]
    simp only [decodeVarint_encodeVarint v rest h3]
    have : (num * 8 + 0) / 8 = num := by omega
    rw [this]
  | (num, .fix64 v) =>
    simp only [fieldOk, Bool.and_eq_true, decide_eq_true_eq] at hf
    obtain ⟨⟨h1, h2⟩, h3⟩ := hf
    have htag : num * 8 + 1 < 2 ^ 64 := by
      have : (2 : Nat) ^ 29 * 8 ≤ 2 ^ 64 := by norm_num
      omega
    simp only [serField, List.append_assoc]
    unfold parseOneField
    simp only [decodeVarint_encodeVarint (num * 8 + 1) _ htag]
    rw [if_neg (by omega : ¬ (num * 8 + 1) / 8 = 0)]
    rw [if_neg (by omega : ¬ (num * 8 + 1) % 8 = 0),
      if_pos (by omega : (num * 8 + 1) % 8 = 1)]
    simp only [decodeFixed_encodeFixed 8 v rest (by norm_num at h3 ⊢; omega)]
    have : (num * 8 + 1) / 8 = num := by omega
    rw [this]
  | (num, .lenPayload bs) =>
    simp only [fieldOk, Bool.and_eq_true, decide_eq_true_eq] at hf
    obtain ⟨⟨h1, h2⟩, h3⟩ := hf
    have htag : num * 8 + 2 < 2 ^ 64 := by
      have : (2 : Nat) ^ 29 * 8 ≤ 2 ^ 64 := by norm_num
      omega
    simp only [serField, List.append_assoc]
    unfold parseOneField
    simp only [decodeVarint_encodeVarint (num * 8 + 2) _ htag]
    rw [if_neg (by omega : ¬ (num * 8 + 2) / 8 = 0)]
    rw [if_neg (by omega : ¬ (num * 8 + 2) % 8 = 0)]
    rw [if_neg (by omega : ¬ (num * 8 + 2) % 8 = 1),
      if_pos (by omega : (num * 8 + 2) % 8 = 2)]
    simp only [decodeRawBytes_encodeRawBytes bs rest h3]
    have : (num * 8 + 2) / 8 = num := by omega
    rw [this]
  | (num, .fix32 v) =>
    simp only [fieldOk, Bool.and_eq_true, decide_eq_true_eq] at hf
    obtain ⟨⟨h1, h2⟩, h3⟩ := hf
    have htag : num * 8 + 5 < 2 ^ 64 := by
      have : (2 : Nat) ^ 29 * 8 ≤ 2 ^ 64 := by norm_num
      omega
    simp only [serField, List.append_assoc]
    unfold parseOneField
    simp only [decodeVarint_encodeVarint (num * 8 + 5) _ htag]
    rw [if_neg (by omega : ¬ (num * 8 + 5) / 8 = 0)]
    rw [if_neg (by omega : ¬ (num * 8 + 5) % 8 = 0)]
    rw [if_neg (by omega : ¬ (num * 8 + 5) % 8 = 1)]
    rw [if_neg (by omega : ¬ (num * 8 + 5) % 8 = 2),
      if_pos (by omega : (num * 8 + 5) % 8 = 5)]
    simp only [decodeFixed_encodeFixed 4 v rest (by norm_num at h3 ⊢; omega)]
    have : (num * 8 + 5) / 8 = num := by omega
    rw [this]

/-- Parsing recovers a serialized field list (this is
`proto.Unmarshal ∘ proto.Marshal = id` for the wire-format subset). -/
theorem parseFields_serFields (fs : List ProtoField)
    (hok : ∀ f ∈ fs, fieldOk f = true) :
    parseFields (serFields fs) = some fs := by
  induction fs with
  | nil => rfl
  | cons f fs ih =>
    have hser : serFields (f :: fs) = serField f ++ serFields fs := by
      simp [serFields]
    rw [hser]
    have hne := serField_ne_nil f
    match hsf : serField f with
    | [] => exact absurd hsf hne
    | b :: srest =>
      unfold parseFields
      have hlen : (b :: srest ++ serFields fs).length =
          ((b :: srest) ++ serFields fs).length := rfl
      show parseFieldsAux ((b :: (srest ++ serFields fs))).length
        (b :: (srest ++ serFields fs)) = some (f :: fs)
      show (match parseOneField (b :: (srest ++ serFields fs)) with
        | none => none
        | some (f', r') =>
          match parseFieldsAux (srest ++ serFields fs).length r' with
          | none => none
          | some fs' => some (f' :: fs')) = some (f :: fs)
      have hone : parseOneField (b :: (srest ++ serFields fs)) =
          some (f, serFields fs) := by
        have := parseOneField_serField f (serFields fs) (hok f (by simp))
        rw [hsf] at this
        simpa using this
      have hrec : parseFieldsAux (srest ++ serFields fs).length (serFields fs) =
          parseFields (serFields fs) := by
        apply parseFieldsAux_fuel
        · simp
        · rfl
      simp only [hone, hrec, ih (fun g hg => hok g (by simp [hg]))]

theorem extractItems_map (items : List (List Nat)) :
    extractItems (items.map fun bs => (1, FieldVal.lenPayload bs)) = some items := by
  induction items with
  | nil => rfl
  | cons bs items ih => simp only [List.map_cons, extractItems, ih]

theorem parseItemsMsg_serItemsMsg (items : List (List Nat))
    (hlen : ∀ bs ∈ items, bs.length < 2 ^ 64) :
    parseItemsMsg (serItemsMsg items) = some items := by
  unfold parseItemsMsg serItemsMsg
  rw [parseFields_serFields]
  · exact extractItems_map items
  · intro f hf
    simp only [List.mem_map] at hf
    obtain ⟨bs, hbs, rfl⟩ := hf
    simp only [fieldOk, Bool.and_eq_true, decide_eq_true_eq]
    exact ⟨⟨by omega, by norm_num⟩, hlen bs hbs⟩

theorem parseEntry_serEntry (kb vb : List Nat)
    (hk : kb.length < 2 ^ 64) (hv : vb.length < 2 ^ 64) :
    parseEntry (serEntry kb vb) = some (kb, vb) := by
  have hok1 : fieldOk (1, FieldVal.lenPayload kb) = true := by
    simp only [fieldOk, Bool.and_eq_true, decide_eq_true_eq]
    exact ⟨⟨by omega, by norm_num⟩, hk⟩
  have hok2 : fieldOk (2, FieldVal.lenPayload vb) = true := by
    simp only [fieldOk, Bool.and_eq_true, decide_eq_true_eq]
    exact ⟨⟨by omega, by norm_num⟩, hv⟩
  by_cases hke : kb = [] <;> by_cases hve : vb = []
  · subst hke; subst hve
    rfl
  · subst hke
    have hser : serEntry [] vb = serFields [(2, FieldVal.lenPayload vb)] := by
      simp [serEntry, serFields, hve]
    unfold parseEntry
    rw [hser, parseFields_serFields _ (by intro f hf; simp at hf; subst hf; exact hok2)]
    simp [getBytesField]
  · subst hve
    have hser : serEntry kb [] = serFields [(1, FieldVal.lenPayload kb)] := by
      simp [serEntry, serFields, hke]
    unfold parseEntry
    rw [hser, parseFields_serFields _ (by intro f hf; simp at hf; subst hf; exact hok1)]
    simp [getBytesField]
  · have hser : serEntry kb vb =
        serFields [(1, FieldVal.lenPayload kb), (2, FieldVal.lenPayload vb)] := by
      simp [serEntry, serFields, hke, hve]
    unfold parseEntry
    rw [hser, parseFields_serFields _ (by
      intro f hf
      simp only [List.mem_cons, List.mem_singleton, List.not_mem_nil, or_false] at hf
      rcases hf with rfl | rfl
      · exact hok1
      · exact hok2)]
    simp [getBytesField]

/-! ### Length bookkeeping -/
theorem encodeVarintAux_length (fuel : Nat) :
    ∀ n : Nat, (encodeVarintAux fuel n).length ≤ fuel := by
  induction fuel with
  | zero => intro n; simp [encodeVarintAux]
  | succ fuel ih =>
    intro n
    by_cases h : n < 128
    · rw [encodeVarintAux_lt fuel n h]; simp
    · rw [encodeVarintAux_ge fuel n h]
      have := ih (n / 128)
      simp only [List.length_cons]
      omega

theorem encodeVarint_length (n : Nat) : (encodeVarint n).length ≤ 10 :=
  encodeVarintAux_length 10 n

theorem encodeVarint_length_pos (n : Nat) : 1 ≤ (encodeVarint n).length := by
  unfold encodeVarint
  by_cases h : n < 128
  · rw [encodeVarintAux_lt 9 n h]; simp
  · rw [encodeVarintAux_ge 9 n h]; simp

theorem encodeFixed_length (k : Nat) : ∀ n : Nat, (encodeFixed k n).length = k := by
  induction k with
  | zero => intro n; simp [encodeFixed]
  | succ k ih => intro n; simp [encodeFixed, ih (n / 256)]

theorem encodeRawBytes_length (l : List Nat) :
    (encodeRawBytes l).length ≤ 10 + l.length := by
  simp only [encodeRawBytes, List.length_append]
  have := encodeVarint_length l.length
  omega

theorem marshalLenOk_spec (v : GoVal) (h : marshalLenOk v = true) :
    ∃ bs, Marshal v = .ok bs ∧ bs.length < 2 ^ 64 := by
  unfold marshalLenOk at h
  match hm : Marshal v with
  | .ok bs =>
    simp only [hm, decide_eq_true_eq] at h
    exact ⟨bs, rfl, h⟩
  | .err e => simp [hm] at h
  | .panic => simp [hm] at h

theorem Marshal_len_ok (t : KType) (v : GoVal) (h : WellTyped t v = true) :
    ∃ bs, Marshal v = .ok bs ∧ bs.length < 2 ^ 64 := by
  cases t <;> cases v <;> try exact Bool.noConfusion h
  case i32T.i32V x =>
    exact ⟨_, rfl, by have := encodeVarint_length (zigzag32 x); omega⟩
  case i64T.i64V x =>
    exact ⟨_, rfl, by have := encodeVarint_length (zigzag64 x); omega⟩
  case u32T.u32V x =>
    exact ⟨_, rfl, by have := encodeVarint_length x; omega⟩
  case u64T.u64V x =>
    exact ⟨_, rfl, by have := encodeVarint_length x; omega⟩
  case boolT.boolV b =>
    exact ⟨_, rfl, by have := encodeVarint_length (if b then 1 else 0); omega⟩
  case f32T.f32V bits =>
    exact ⟨_, rfl, by have := encodeFixed_length 4 bits; omega⟩
  case f64T.f64V bits =>
    exact ⟨_, rfl, by have := encodeFixed_length 8 bits; omega⟩
  case strT.strV s =>
    refine ⟨_, rfl, ?_⟩
    simp only [WellTyped, Bool.and_eq_true, decide_eq_true_eq] at h
    have := encodeRawBytes_length s
    omega
  case bytesT.bytesV s =>
    refine ⟨_, rfl, ?_⟩
    simp only [WellTyped, Bool.and_eq_true, decide_eq_true_eq] at h
    have := encodeRawBytes_length s
    omega
  case classT.classV id =>
    exact ⟨_, rfl, by have := encodeVarint_length id; omega⟩
  case enumT.enumV x =>
    exact ⟨_, rfl, by have := encodeVarint_length (zigzag32 x); omega⟩
  case msgT.msgV fs =>
    simp only [WellTyped, Bool.and_eq_true] at h
    exact marshalLenOk_spec _ h.2
  case listT.listV t items =>
    simp only [WellTyped, Bool.and_eq_true] at h
    exact marshalLenOk_spec _ h.2
  case setT.setV t items =>
    simp only [WellTyped, Bool.and_eq_true] at h
    exact marshalLenOk_spec _ h.2
  case dictT.dictV kt vt entries =>
    simp only [WellTyped, Bool.and_eq_true] at h
    exact marshalLenOk_spec _ h.2
  case tupleT.tupleV ts fields =>
    simp only [WellTyped, Bool.and_eq_true] at h
    exact marshalLenOk_spec _ h.2

theorem serItemsMsg_cons (bs : List Nat) (items : List (List Nat)) :
    serItemsMsg (bs :: items) =
      serField (1, FieldVal.lenPayload bs) ++ serItemsMsg items := by
  simp [serItemsMsg, serFields]

theorem serField_lenPayload_length (num : Nat) (bs : List Nat) :
    bs.length + 2 ≤ (serField (num, FieldVal.lenPayload bs)).length := by
  simp only [serField, encodeRawBytes, List.length_append]
  have h1 := encodeVarint_length_pos (num * 8 + 2)
  have h2 := encodeVarint_length_pos bs.length
  omega

theorem mem_serItemsMsg_length (items : List (List Nat)) (bs : List Nat)
    (h : bs ∈ items) : bs.length < (serItemsMsg items).length := by
  induction items with
  | nil => simp at h
  | cons b rest ih =>
    rw [serItemsMsg_cons, List.length_append]
    rcases List.mem_cons.mp h with rfl | hmem
    · have := serField_lenPayload_length 1 bs
      omega
    · have := ih hmem
      omega

theorem parseEntries_map (pairs : List (List Nat × List Nat))
    (h : ∀ e ∈ pairs, e.1.length < 2 ^ 64 ∧ e.2.length < 2 ^ 64) :
    parseEntries (pairs.map fun e => serEntry e.1 e.2) = some pairs := by
  induction pairs with
  | nil => rfl
  | cons e rest ih =>
    obtain ⟨h1, h2⟩ := h e (by simp)
    simp only [List.map_cons, parseEntries, parseEntry_serEntry e.1 e.2 h1 h2,
      ih (fun x hx => h x (by simp [hx]))]

/-! ## The round-trip law

It holds on the decodable fragment (`Decodable t`): outside it — a class or
message in a tuple component, set element or dictionary key — the encoder
succeeds but the decoder rejects the component type, see
`C1_counterexample`. -/

theorem bnot_eq_true {b : Bool} (h : (!b) = true) : b = false := by
  cases b <;> simp_all

mutual
theorem Marshal_Unmarshal (t : KType) (v : GoVal) (h : WellTyped t v = true)
    (hdec : Decodable t = true) :
    ∃ bs, Marshal v = .ok bs ∧ bs.length < 2 ^ 64 ∧ Unmarshal t bs = .ok v := by
  cases t <;> cases v <;> try exact Bool.noConfusion h
  case i32T.i32V x =>
    simp only [WellTyped, Bool.and_eq_true, decide_eq_true_eq] at h
    refine ⟨_, rfl, by have := encodeVarint_length (zigzag32 x); omega, ?_⟩
    have hz : zigzag32 x < 2 ^ 64 := by
      have := zigzag32_lt x h.1 h.2
      omega
    have hdv : decodeVarint (encodeVarint (zigzag32 x)) = some (zigzag32 x, []) := by
      have := decodeVarint_encodeVarint (zigzag32 x) [] hz
      simpa using this
    simp only [Unmarshal, hdv, unzigzag32_zigzag32 x h.1 h.2]
  case i64T.i64V x =>
    simp only [WellTyped, Bool.and_eq_true, decide_eq_true_eq] at h
    refine ⟨_, rfl, by have := encodeVarint_length (zigzag64 x); omega, ?_⟩
    have hz : zigzag64 x < 2 ^ 64 := zigzag64_lt x h.1 h.2
    have hdv : decodeVarint (encodeVarint (zigzag64 x)) = some (zigzag64 x, []) := by
      have := decodeVarint_encodeVarint (zigzag64 x) [] hz
      simpa using this
    simp only [Unmarshal, hdv, unzigzag64_zigzag64 x h.1 h.2]
  case u32T.u32V x =>
    simp only [WellTyped, decide_eq_true_eq] at h
    refine ⟨_, rfl, by have := encodeVarint_length x; omega, ?_⟩
    have hdv : decodeVarint (encodeVarint x) = some (x, []) := by
      have := decodeVarint_encodeVarint x [] (by omega)
      simpa using this
    simp only [Unmarshal, hdv, Nat.mod_eq_of_lt h]
  case u64T.u64V x =>
    simp only [WellTyped, decide_eq_true_eq] at h
    refine ⟨_, rfl, by have := encodeVarint_length x; omega, ?_⟩
    have hdv : decodeVarint (encodeVarint x) = some (x, []) := by
      have := decodeVarint_encodeVarint x [] h
      simpa using this
    simp only [Unmarshal, hdv]
  case boolT.boolV b =>
    refine ⟨_, rfl, by have := encodeVarint_length (if b then 1 else 0); omega, ?_⟩
    have hdv : decodeVarint (encodeVarint (if b then 1 else 0)) =
        some (if b then 1 else 0, []) := by
      have := decodeVarint_encodeVarint (if b then 1 else 0) []
        (by cases b <;> norm_num)
      simpa using this
    simp only [Unmarshal, hdv]
    cases b <;> rfl
  case f32T.f32V bits =>
    simp only [WellTyped, decide_eq_true_eq] at h
    refine ⟨_, rfl, by have := encodeFixed_length 4 bits; omega, ?_⟩
    have hdv : decodeFixed 4 (encodeFixed 4 bits) = some (bits, []) := by
      have := decodeFixed_encodeFixed 4 bits [] (by norm_num at h ⊢; omega)
      simpa using this
    simp only [Unmarshal, hdv]
  case f64T.f64V bits =>
    simp only [WellTyped, decide_eq_true_eq] at h
    refine ⟨_, rfl, by have := encodeFixed_length 8 bits; omega, ?_⟩
    have hdv : decodeFixed 8 (encodeFixed 8 bits) = some (bits, []) := by
      have := decodeFixed_encodeFixed 8 bits [] (by norm_num at h ⊢; omega)
      simpa using this
    simp only [Unmarshal, hdv]
  case strT.strV s =>
    simp only [WellTyped, Bool.and_eq_true, decide_eq_true_eq] at h
    refine ⟨_, rfl, by have := encodeRawBytes_length s; omega, ?_⟩
    have hdv : decodeRawBytes (encodeRawBytes s) = some (s, []) := by
      have := decodeRawBytes_encodeRawBytes s [] (by omega)
      simpa using this
    simp only [Unmarshal, hdv]
  case bytesT.bytesV s =>
    simp only [WellTyped, Bool.and_eq_true, decide_eq_true_eq] at h
    refine ⟨_, rfl, by have := encodeRawBytes_length s; omega, ?_⟩
    have hdv : decodeRawBytes (encodeRawBytes s) = some (s, []) := by
      have := decodeRawBytes_encodeRawBytes s [] (by omega)
      simpa using this
    simp only [Unmarshal, hdv]
  case classT.classV idv =>
    simp only [WellTyped, decide_eq_true_eq] at h
    refine ⟨_, rfl, by have := encodeVarint_length idv; omega, ?_⟩
    have hdv : decodeVarint (encodeVarint idv) = some (idv, []) := by
      have := decodeVarint_encodeVarint idv [] h
      simpa using this
    simp only [Unmarshal, hdv]
  case enumT.enumV x =>
    simp only [WellTyped, Bool.and_eq_true, decide_eq_true_eq] at h
    refine ⟨_, rfl, by have := encodeVarint_length (zigzag32 x); omega, ?_⟩
    have hz : zigzag32 x < 2 ^ 64 := by
      have := zigzag32_lt x h.1 h.2
      omega
    have hdv : decodeVarint (encodeVarint (zigzag32 x)) = some (zigzag32 x, []) := by
      have := decodeVarint_encodeVarint (zigzag32 x) [] hz
      simpa using this
    simp only [Unmarshal, hdv, unzigzag32_zigzag32 x h.1 h.2]
  case msgT.msgV fs =>
    simp only [WellTyped, Bool.and_eq_true] at h
    obtain ⟨hfok, hlo⟩ := h
    obtain ⟨bs0, hm0, hlen0⟩ := marshalLenOk_spec _ hlo
    have hbs : bs0 = serFields fs := by
      have : Marshal (.msgV fs) = .ok (serFields fs) := rfl
      rw [this] at hm0
      exact ((MRes.ok.injEq _ _).mp hm0).symm
    subst hbs
    refine ⟨_, rfl, hlen0, ?_⟩
    have hpf : parseFields (serFields fs) = some fs :=
      parseFields_serFields fs (by
        intro f hf
        exact List.all_eq_true.mp hfok f hf)
    simp only [Unmarshal, hpf]
  case listT.listV te items =>
    simp only [WellTyped, Bool.and_eq_true] at h
    simp only [Decodable] at hdec
    obtain ⟨hwt, hlo⟩ := h
    obtain ⟨bss, hm, hlens, hu⟩ := MarshalList_UnmarshalElems te items hwt hdec
    have hmar : Marshal (.listV items) = .ok (serItemsMsg bss) := by
      simp only [Marshal, hm]
    obtain ⟨bs0, hm0, hlen0⟩ := marshalLenOk_spec _ hlo
    rw [hmar] at hm0
    have hbs : serItemsMsg bss = bs0 := (MRes.ok.injEq _ _).mp hm0
    rw [← hbs] at hlen0
    refine ⟨_, hmar, hlen0, ?_⟩
    simp only [Unmarshal, parseItemsMsg_serItemsMsg bss hlens, hu]
  case setT.setV te items =>
    simp only [WellTyped, Bool.and_eq_true] at h
    simp only [Decodable, Bool.and_eq_true] at hdec
    obtain ⟨hp', hd⟩ := hdec
    have hptr : te.isPtrType = false := bnot_eq_true hp'
    obtain ⟨⟨hwt, hnd⟩, hlo⟩ := h
    obtain ⟨bss, hm, hlens, hu⟩ := MarshalList_UnmarshalSetElems te items hwt hptr hd
    have hmar : Marshal (.setV items) = .ok (serItemsMsg bss) := by
      simp only [Marshal, hm]
    obtain ⟨bs0, hm0, hlen0⟩ := marshalLenOk_spec _ hlo
    rw [hmar] at hm0
    have hbs : serItemsMsg bss = bs0 := (MRes.ok.injEq _ _).mp hm0
    rw [← hbs] at hlen0
    refine ⟨_, hmar, hlen0, ?_⟩
    simp only [Unmarshal, parseItemsMsg_serItemsMsg bss hlens, hu]
  case dictT.dictV kt vt entries =>
    simp only [WellTyped, Bool.and_eq_true, decide_eq_true_eq] at h
    simp only [Decodable, Bool.and_eq_true] at hdec
    obtain ⟨⟨hp', hdk⟩, hdv⟩ := hdec
    have hptr : kt.isPtrType = false := bnot_eq_true hp'
    obtain ⟨⟨⟨hne, hwt⟩, hnd⟩, hlo⟩ := h
    obtain ⟨prs, hmp, hlens, hup⟩ :=
      MarshalPairs_UnmarshalPairs kt vt entries hwt hptr hdk hdv
    have hmar : Marshal (.dictV entries) =
        .ok (serItemsMsg (prs.map fun e => serEntry e.1 e.2)) := by
      simp only [Marshal, hmp]
    obtain ⟨bs0, hm0, hlen0⟩ := marshalLenOk_spec _ hlo
    rw [hmar] at hm0
    have hbs : serItemsMsg (prs.map fun e => serEntry e.1 e.2) = bs0 :=
      (MRes.ok.injEq _ _).mp hm0
    rw [← hbs] at hlen0
    have hitems : ∀ bs ∈ prs.map fun e => serEntry e.1 e.2, bs.length < 2 ^ 64 := by
      intro bs hbs'
      have := mem_serItemsMsg_length _ bs hbs'
      omega
    refine ⟨_, hmar, hlen0, ?_⟩
    simp only [Unmarshal, hne, if_false, parseItemsMsg_serItemsMsg _ hitems,
      parseEntries_map prs hlens, hup]
  case tupleT.tupleV ts fields =>
    simp only [WellTyped, Bool.and_eq_true] at h
    simp only [Decodable] at hdec
    obtain ⟨hwt, hlo⟩ := h
    obtain ⟨bss, hm, hlens, hlequ, hu⟩ := MarshalList_UnmarshalTuple ts fields hwt hdec
    have hmar : Marshal (.tupleV fields) = .ok (serItemsMsg bss) := by
      simp only [Marshal, hm]
    obtain ⟨bs0, hm0, hlen0⟩ := marshalLenOk_spec _ hlo
    rw [hmar] at hm0
    have hbs : serItemsMsg bss = bs0 := (MRes.ok.injEq _ _).mp hm0
    rw [← hbs] at hlen0
    refine ⟨_, hmar, hlen0, ?_⟩
    have harity : ¬ bss.length ≠ ts.len := by simp [hlequ]
    simp only [Unmarshal, parseItemsMsg_serItemsMsg bss hlens, harity, if_false, hu]
theorem MarshalList_UnmarshalElems (t : KType) (items : GoValList)
    (h : WellTypedList t items = true) (hdec : Decodable t = true) :
    ∃ bss, MarshalList items = .ok bss ∧ (∀ bs ∈ bss, bs.length < 2 ^ 64) ∧
      UnmarshalElems t bss = .ok items := by
  cases items with
  | nil => exact ⟨[], rfl, by simp, by simp [UnmarshalElems]⟩
  | cons v rest =>
    simp only [WellTypedList, Bool.and_eq_true] at h
    obtain ⟨h1, h2⟩ := h
    obtain ⟨bs, hm, hlen, hu⟩ := Marshal_Unmarshal t v h1 hdec
    obtain ⟨bss, hms, hlens, hus⟩ := MarshalList_UnmarshalElems t rest h2 hdec
    refine ⟨bs :: bss, ?_, ?_, ?_⟩
    · simp only [MarshalList, hm, hms]
    · intro b hb
      rcases List.mem_cons.mp hb with rfl | hb'
      · exact hlen
      · exact hlens b hb'
    · simp only [UnmarshalElems, hu, hus]
theorem MarshalList_UnmarshalSetElems (t : KType) (items : GoValList)
    (h : WellTypedList t items = true) (hptr : t.isPtrType = false)
    (hdec : Decodable t = true) :
    ∃ bss, MarshalList items = .ok bss ∧ (∀ bs ∈ bss, bs.length < 2 ^ 64) ∧
      UnmarshalSetElems t bss = .ok items := by
  cases items with
  | nil => exact ⟨[], rfl, by simp, by simp [UnmarshalSetElems]⟩
  | cons v rest =>
    simp only [WellTypedList, Bool.and_eq_true] at h
    obtain ⟨h1, h2⟩ := h
    obtain ⟨bs, hm, hlen, hu⟩ := Marshal_Unmarshal t v h1 hdec
    obtain ⟨bss, hms, hlens, hus⟩ := MarshalList_UnmarshalSetElems t rest h2 hptr hdec
    refine ⟨bs :: bss, ?_, ?_, ?_⟩
    · simp only [MarshalList, hm, hms]
    · intro b hb
      rcases List.mem_cons.mp hb with rfl | hb'
      · exact hlen
      · exact hlens b hb'
    · simp [UnmarshalSetElems, hptr, hu, hus]
theorem MarshalList_UnmarshalTuple (ts : KTypeList) (fields : GoValList)
    (h : WellTypedTuple ts fields = true) (hdec : DecodableFields ts = true) :
    ∃ bss, MarshalList fields = .ok bss ∧ (∀ bs ∈ bss, bs.length < 2 ^ 64) ∧
      bss.length = ts.len ∧ UnmarshalTuple ts bss = .ok fields := by
  cases ts with
  | nil =>
    cases fields with
    | nil => exact ⟨[], rfl, by simp, rfl, by simp [UnmarshalTuple]⟩
    | cons v rest => exact Bool.noConfusion h
  | cons t ts =>
    cases fields with
    | nil => exact Bool.noConfusion h
    | cons v rest =>
      simp only [WellTypedTuple, Bool.and_eq_true] at h
      simp only [DecodableFields, Bool.and_eq_true] at hdec
      obtain ⟨⟨hp', hd⟩, hds⟩ := hdec
      have hptr : t.isPtrType = false := bnot_eq_true hp'
      obtain ⟨h1, h2⟩ := h
      obtain ⟨bs, hm, hlen, hu⟩ := Marshal_Unmarshal t v h1 hd
      obtain ⟨bss, hms, hlens, hlequ, hus⟩ := MarshalList_UnmarshalTuple ts rest h2 hds
      refine ⟨bs :: bss, ?_, ?_, ?_, ?_⟩
      · simp only [MarshalList, hm, hms]
      · intro b hb
        rcases List.mem_cons.mp hb with rfl | hb'
        · exact hlen
        · exact hlens b hb'
      · simp [KTypeList.len, hlequ]
      · simp [UnmarshalTuple, hptr, hu, hus]
theorem MarshalPairs_UnmarshalPairs (kt vt : KType) (entries : GoValPairs)
    (h : WellTypedPairs kt vt entries = true) (hptr : kt.isPtrType = false)
    (hdk : Decodable kt = true) (hdv : Decodable vt = true) :
    ∃ prs, MarshalPairs entries = .ok prs ∧
      (∀ e ∈ prs, e.1.length < 2 ^ 64 ∧ e.2.length < 2 ^ 64) ∧
      UnmarshalPairs kt vt prs = .ok entries := by
  cases entries with
  | nil => exact ⟨[], rfl, by simp, by simp [UnmarshalPairs]⟩
  | cons k v rest =>
    simp only [WellTypedPairs, Bool.and_eq_true] at h
    obtain ⟨⟨h1, h2⟩, h3⟩ := h
    obtain ⟨kb, hmk, hlk, huk⟩ := Marshal_Unmarshal kt k h1 hdk
    obtain ⟨vb, hmv, hlv, huv⟩ := Marshal_Unmarshal vt v h2 hdv
    obtain ⟨prs, hms, hlens, hus⟩ :=
      MarshalPairs_UnmarshalPairs kt vt rest h3 hptr hdk hdv
    refine ⟨(kb, vb) :: prs, ?_, ?_, ?_⟩
    · simp only [MarshalPairs, hmk, hmv, hms]
    · intro e he
      rcases List.mem_cons.mp he with rfl | he'
      · exact ⟨hlk, hlv⟩
      · exact hlens e he'
    · simp [UnmarshalPairs, hptr, huk, huv, hus]
end

theorem protoDecodeVarintAux_allcont :
    ∀ (buf : List Nat) (shift x n : Nat), (∀ b ∈ buf, 128 ≤ b % 256) →
      protoDecodeVarintAux buf shift x n = (0, 0) := by
  intro buf
  induction buf with
  | nil => intro shift x n _; rfl
  | cons b rest ih =>
    intro shift x n hcont
    have hb : 128 ≤ b % 256 := hcont b (by simp)
    simp only [protoDecodeVarintAux]
    split_ifs with h1 h2
    · rfl
    · omega
    · exact ih _ _ _ (fun c hc => hcont c (by simp [hc]))

theorem readMessageLengthAux_allcont :
    ∀ (pre raw rest : List Nat), (∀ b ∈ raw, 128 ≤ b % 256) →
      (∀ b ∈ pre, 128 ≤ b % 256) → raw.length + pre.length = 16 →
      readMessageLengthAux (pre ++ rest) raw = .protocolErr rest := by
  intro pre
  induction pre with
  | nil =>
    intro raw rest hraw hpre hlen
    simp only [List.length_nil] at hlen
    have h16 : ¬ raw.length < 16 := by omega
    cases rest with
    | nil => simp [readMessageLengthAux, h16]
    | cons b r => simp [readMessageLengthAux, h16]
  | cons b pre ih =>
    intro raw rest hraw hpre hlen
    simp only [List.length_cons] at hlen
    have hlt : raw.length < 16 := by omega
    have hcont2 : ∀ c ∈ raw ++ [b], 128 ≤ c % 256 := by
      intro c hc
      rcases List.mem_append.mp hc with hc' | hc'
      · exact hraw c hc'
      · simp only [List.mem_singleton] at hc'
        subst hc'
        exact hpre c (by simp)
    have hdv : protoDecodeVarint (raw ++ [b]) = (0, 0) :=
      protoDecodeVarintAux_allcont _ 0 0 0 hcont2
    simp only [List.cons_append, readMessageLengthAux, if_pos hlt, hdv]
    norm_num
    exact ih (raw ++ [b]) rest hcont2 (fun c hc => hpre c (by simp [hc]))
      (by simp; omega)

/-! ## Supporting lemmas for the claim theorems -/
theorem WellTypedTuple_len (ts : KTypeList) (fields : GoValList)
    (h : WellTypedTuple ts fields = true) : fields.len = ts.len := by
  cases ts with
  | nil =>
    cases fields with
    | nil => rfl
    | cons v rest => exact Bool.noConfusion h
  | cons t ts =>
    cases fields with
    | nil => exact Bool.noConfusion h
    | cons v rest =>
      simp only [WellTypedTuple, Bool.and_eq_true] at h
      simp [GoValList.len, KTypeList.len, WellTypedTuple_len ts rest h.2]

theorem MarshalTuple_ok (ts : KTypeList) (fields : GoValList)
    (h : WellTypedTuple ts fields = true) :
    ∃ bss, MarshalList fields = MRes.ok bss ∧ (∀ bs ∈ bss, bs.length < 2 ^ 64) ∧
      bss.length = ts.len := by
  cases ts with
  | nil =>
    cases fields with
    | nil => exact ⟨[], rfl, by simp, rfl⟩
    | cons v rest => exact Bool.noConfusion h
  | cons t ts =>
    cases fields with
    | nil => exact Bool.noConfusion h
    | cons v rest =>
      simp only [WellTypedTuple, Bool.and_eq_true] at h
      obtain ⟨h1, h2⟩ := h
      obtain ⟨bs, hm, hlen⟩ := Marshal_len_ok t v h1
      obtain ⟨bss, hms, hlens, hlequ⟩ := MarshalTuple_ok ts rest h2
      refine ⟨bs :: bss, ?_, ?_, ?_⟩
      · simp only [MarshalList, hm, hms]
      · intro b hb
        rcases List.mem_cons.mp hb with rfl | hb'
        · exact hlen
        · exact hlens b hb'
      · simp [KTypeList.len, hlequ]

/-! ## The claims -/
/-- C1 counterexample: the claim quantifies over every well-typed value of
the union, nested combinations included, but a tuple with a protobuf-message
component refutes it: the value encodes (`Marshal` succeeds), yet decoding
under its own type hint fails — the tuple branch of `Unmarshal` passes the
un-unwrapped pointer field type (`**types.Response`-shaped) to the recursive
call, which rejects it as an unsupported type. -/
theorem C1_counterexample :
    WellTyped c1BadType c1BadValue = true ∧
      Marshal c1BadValue = MRes.ok [10, 0] ∧
      Unmarshal c1BadType [10, 0] = Except.error "Unsupported type" := by
  refine ⟨by decide, by decide, ?_⟩
  have hp : parseItemsMsg [10, 0] = some [[]] := by decide
  have hu : UnmarshalTuple (KTypeList.cons KType.msgT KTypeList.nil) [[]] =
      Except.error "Unsupported type" := by
    simp [UnmarshalTuple, KType.isPtrType]
  have hcond : ¬ (([([] : List Nat)]).length ≠
      (KTypeList.cons KType.msgT KTypeList.nil).len) := by decide
  show Unmarshal (KType.tupleT (KTypeList.cons KType.msgT KTypeList.nil)) [10, 0] =
    Except.error "Unsupported type"
  simp only [Unmarshal, hp]
  rw [if_neg hcond]
  simp only [hu]

/-- C1 (amended): for every well-typed value `v` of a supported kRPC kind —
signed and unsigned 32/64-bit integer, bool, float32, float64 (as IEEE-754
bit patterns), string, byte blob, class handle, enum, list, set, dictionary,
tuple, protobuf message, nested combinations included — whose type hint is
decodable (class handles and protobuf messages may appear at top level, as
list elements and as dictionary values, but not as tuple components, set
elements or dictionary keys: there `Unmarshal` hands the un-unwrapped
pointer component type to the recursive call and fails), decoding the
encoding of `v` under `v`'s own type hint yields `v` again:
`Unmarshal(Marshal(v), &out)` succeeds and `out = v`. -/
theorem C1_roundTrip_law (t : KType) (v : GoVal) (h : WellTyped t v = true)
    (hdec : Decodable t = true) :
    ∃ bs, Marshal v = MRes.ok bs ∧ Unmarshal t bs = Except.ok v := by
  obtain ⟨bs, h1, -, h3⟩ := Marshal_Unmarshal t v h hdec
  exact ⟨bs, h1, h3⟩

theorem C1_roundTrip_law_witness :
    WellTyped c1Type c1Value = true ∧ Decodable c1Type = true ∧
      ∃ bs, Marshal c1Value = MRes.ok bs ∧ Unmarshal c1Type bs = Except.ok c1Value :=
  ⟨by decide, by decide, C1_roundTrip_law c1Type c1Value (by decide) (by decide)⟩

/-- C2 counterexample: the claim says the reader fails with the protocol
error "after reading more than 10 bytes without a terminating byte …
instead of reading further"; on a stream whose first sixteen bytes all carry
the continuation bit the code goes on reading and consumes sixteen bytes
(the unread remainder is `[0, 42]`), so it did not stop after eleven — in
particular the remainder differs from what dropping eleven bytes leaves. -/
theorem C2_counterexample :
    readMessageLength c2Stream = ReadLenResult.protocolErr [0, 42] ∧
      c2Stream.drop 11 ≠ [0, 42] := by decide

/-- C2 (amended): the frame-length reader consumes the varint byte by byte
and gives up only after sixteen bytes: whenever the first sixteen bytes of
the stream all have the continuation bit set, it consumes exactly those
sixteen bytes and then fails with the protocol error ("Message does not
appear to start with length"); bytes 11–16 are still consumed, because the
loop bound is `len(rawLength) < 16` and `proto.DecodeVarint` itself gives up
after ten continuation bytes. -/
theorem C2_readMessageLength_sixteen (pre rest : List Nat)
    (hlen : pre.length = 16) (hcont : ∀ b ∈ pre, 128 ≤ b % 256) :
    readMessageLength (pre ++ rest) = ReadLenResult.protocolErr rest := by
  unfold readMessageLength
  exact readMessageLengthAux_allcont pre [] rest (by simp) hcont (by simp [hlen])

theorem C2_readMessageLength_sixteen_witness :
    c2Pre.length = 16 ∧ (∀ b ∈ c2Pre, 128 ≤ b % 256) ∧
      readMessageLength (c2Pre ++ [1, 2]) = ReadLenResult.protocolErr [1, 2] :=
  ⟨by decide, by decide,
    C2_readMessageLength_sixteen c2Pre [1, 2] (by decide) (by decide)⟩

/-- C3 counterexample: on a successfully parsed response with no
request-level error whose single per-call result carries an error,
`CallMultiple` on the singleton batch succeeds with that one-element list,
but `Call` fails — so `Call(c)` neither equals the first element of
`CallMultiple([c])` nor fails exactly when `CallMultiple([c])` fails. -/
theorem C3_counterexample :
    CallMultiple c3Wire = Except.ok [c3Result] ∧
      Call c3Wire = CallOutcome.failed (CallFailure.rpcErr c3Err) ∧
      Call c3Wire ≠ CallOutcome.ok c3Result :=
  ⟨rfl, rfl, by decide⟩

/-- C3 (amended): `Call` is `CallMultiple` on the singleton batch followed
by an inspection of the first result: a batch failure propagates unchanged;
on a successful batch whose first result carries no error `Call` returns
that first result; when the first result carries a per-call error `Call`
additionally fails with it (unlike `CallMultiple`, which leaves per-call
errors to the caller); and an empty result list makes the unchecked
`resp[0]` access panic. -/
theorem C3_Call_spec (w : WireOutcome) :
    (∀ e, CallMultiple w = .error e → Call w = .failed e) ∧
    (∀ r rs, CallMultiple w = .ok (r :: rs) → r.error = none →
      Call w = .ok r) ∧
    (∀ r rs e, CallMultiple w = .ok (r :: rs) → r.error = some e →
      Call w = .failed (.rpcErr e)) ∧
    (CallMultiple w = .ok [] → Call w = .panicked) := by
  refine ⟨?_, ?_, ?_, ?_⟩
  · intro e h; simp [Call, h]
  · intro r rs h hr; simp [Call, h, hr]
  · intro r rs e h hr; simp [Call, h, hr]
  · intro h; simp [Call, h]

theorem C3_Call_spec_witness :
    CallMultiple c3OkWire = Except.ok [c3OkResult] ∧ c3OkResult.error = none ∧
      Call c3OkWire = CallOutcome.ok c3OkResult :=
  ⟨rfl, rfl, (C3_Call_spec c3OkWire).2.1 c3OkResult [] rfl rfl⟩

/-- C4: `Close` can never report success — the results of the underlying
closes are appended to the `errors` slice even when they are nil, and
`len(errors) > 0` then always holds.  Both all-success shapes (no stream
client, or a stream client that closes cleanly, with the RPC socket closing
cleanly) return the "Failed to close connection(s)" error, contradicting
the claim that `Close` succeeds when every underlying close succeeds. -/
theorem C4_Close_always_errors :
    Close none none = Except.error "Failed to close connection(s)" ∧
    Close (some none) none = Except.error "Failed to close connection(s)" ∧
    ∀ (sc : Option (Option String)) (ce : Option String),
      Close sc ce ≠ Except.ok () := by
  refine ⟨rfl, rfl, ?_⟩
  intro sc ce
  cases sc <;> simp [Close]

/-- C5 counterexample: with an empty configuration and an empty environment
the client name defaults to "krpc-go", not "krpc-client" as the claim (and
the spec) state. -/
theorem C5_counterexample :
    (SetDefaults c5EmptyEnv c5EmptyCfg).ClientName = "krpc-go" ∧
      "krpc-go" ≠ "krpc-client" := by decide

/-- C5 (amended): `SetDefaults` fills exactly the unset keys — host defaults
to "localhost", rpc_port to "50000", stream_port to "50001" and client_name
to "krpc-go" — and the environment fall-backs KRPC_HOST, KRPC_PORT,
KRPC_STREAM_PORT, KRPC_CLIENTNAME are consulted only when the corresponding
key is unset (a variable that is present pre-empts the default even when its
value is the empty string); a key that was set is left unchanged, and
`RPCOnly` is never touched. -/
theorem C5_SetDefaults_spec (env : Env) (cfg : KRPCClientConfig) :
    (cfg.Host ≠ "" → (SetDefaults env cfg).Host = cfg.Host) ∧
    (cfg.Host = "" → env.krpcHost = none →
      (SetDefaults env cfg).Host = "localhost") ∧
    (∀ s, cfg.Host = "" → env.krpcHost = some s →
      (SetDefaults env cfg).Host = s) ∧
    (cfg.RPCPort ≠ "" → (SetDefaults env cfg).RPCPort = cfg.RPCPort) ∧
    (cfg.RPCPort = "" → env.krpcPort = none →
      (SetDefaults env cfg).RPCPort = "50000") ∧
    (∀ s, cfg.RPCPort = "" → env.krpcPort = some s →
      (SetDefaults env cfg).RPCPort = s) ∧
    (cfg.StreamPort ≠ "" → (SetDefaults env cfg).StreamPort = cfg.StreamPort) ∧
    (cfg.StreamPort = "" → env.krpcStreamPort = none →
      (SetDefaults env cfg).StreamPort = "50001") ∧
    (∀ s, cfg.StreamPort = "" → env.krpcStreamPort = some s →
      (SetDefaults env cfg).StreamPort = s) ∧
    (cfg.ClientName ≠ "" → (SetDefaults env cfg).ClientName = cfg.ClientName) ∧
    (cfg.ClientName = "" → env.krpcClientname = none →
      (SetDefaults env cfg).ClientName = "krpc-go") ∧
    (∀ s, cfg.ClientName = "" → env.krpcClientname = some s →
      (SetDefaults env cfg).ClientName = s) ∧
    (SetDefaults env cfg).RPCOnly = cfg.RPCOnly := by
  refine ⟨?_, ?_, ?_, ?_, ?_, ?_, ?_, ?_, ?_, ?_, ?_, ?_, rfl⟩ <;>
    (intros; simp_all [SetDefaults, lookupEnvOr])

theorem C5_SetDefaults_spec_witness :
    c5EmptyCfg.ClientName = "" ∧ c5EmptyEnv.krpcClientname = none ∧
      (SetDefaults c5EmptyEnv c5EmptyCfg).ClientName = "krpc-go" :=
  ⟨rfl, rfl,
    (C5_SetDefaults_spec c5EmptyEnv c5EmptyCfg).2.2.2.2.2.2.2.2.2.2.1 rfl rfl⟩

/-- C6: the stream handshake does not share the RPC handshake's failure
policy: on the same non-OK handshake response `connectRPC` fails with the
response message while `connectStream` discards the wrapped error, reports
success and starts the stream loop; on a dial failure `connectRPC` returns
the error while `connectStream` drops it and panics on the nil
connection. -/
theorem C6_connectStream_swallows_errors :
    connectRPC c6BadEnv = Except.error "connection refused: wrong type" ∧
    connectStream c6BadEnv = StreamConnectOutcome.returned none true ∧
    connectRPC c6DialEnv = Except.error "dial tcp: connection refused" ∧
    connectStream c6DialEnv = StreamConnectOutcome.panicked :=
  ⟨rfl, rfl, rfl, rfl⟩

/-- C7: for every parsed response, `CallMultiple` fails with the
request-level RPC error exactly when the response carries one, and otherwise
returns the response's per-call result list unchanged and in order (per-call
error inspection is left to the caller). -/
theorem C7_CallMultiple_spec (resp : Response) :
    (∀ e, resp.error = some e →
      CallMultiple (.response resp) = .error (.rpcErr e)) ∧
    (resp.error = none → CallMultiple (.response resp) = .ok resp.results) := by
  constructor
  · intro e h; simp [CallMultiple, h]
  · intro h; simp [CallMultiple, h]

theorem C7_CallMultiple_spec_witness :
    c7Resp.error = none ∧
      CallMultiple (.response c7Resp) = Except.ok c7Resp.results :=
  ⟨rfl, (C7_CallMultiple_spec c7Resp).2 rfl⟩

/-- C8 counterexample: the claim's `k = n` half says each component is
decoded and assigned positionally, but a one-field struct whose field is a
(pointer-typed) class handle refutes it: the wire `Tuple` carries exactly
`n = 1` items, yet the tuple branch of `Unmarshal` passes the un-unwrapped
pointer field type to the recursive call, which rejects it as an
unsupported type instead of assigning the component. -/
theorem C8_counterexample :
    WellTyped (KType.tupleT c8BadTs) (GoVal.tupleV c8BadFields) = true ∧
      c8BadTs.len = c8BadFields.len ∧
      Marshal (GoVal.tupleV c8BadFields) = MRes.ok [10, 1, 7] ∧
      Unmarshal (KType.tupleT c8BadTs) [10, 1, 7] =
        Except.error "Unsupported type" := by
  refine ⟨by decide, by decide, by decide, ?_⟩
  have hp : parseItemsMsg [10, 1, 7] = some [[7]] := by decide
  have hu : UnmarshalTuple (KTypeList.cons KType.classT KTypeList.nil) [[7]] =
      Except.error "Unsupported type" := by
    simp [UnmarshalTuple, KType.isPtrType]
  have hcond : ¬ (List.length [([7] : List Nat)] ≠
      KTypeList.len (KTypeList.cons KType.classT KTypeList.nil)) := by decide
  show Unmarshal (KType.tupleT (KTypeList.cons KType.classT KTypeList.nil))
      [10, 1, 7] = Except.error "Unsupported type"
  simp only [Unmarshal, hp, if_neg hcond, hu]

/-- C8 (amended): for a target tuple (struct) type of arity `n` and a wire
`Tuple` message carrying `k ≠ n` items, `Unmarshal` refuses the value with
the "Wrong tuple type" codec error, before looking at any component; for
`k = n` it decodes and assigns each component positionally provided no
component type is a class handle or a protobuf message (shown by the round
trip at the matching component types) — those pointer-typed components are
rejected as "Unsupported type" because the tuple branch hands the
un-unwrapped pointer field type to the recursive call. -/
theorem C8_Unmarshal_tuple_arity (tsTarget ts : KTypeList) (fields : GoValList)
    (h : WellTyped (KType.tupleT ts) (GoVal.tupleV fields) = true)
    (hne : tsTarget.len ≠ fields.len) :
    ∃ bs, Marshal (GoVal.tupleV fields) = MRes.ok bs ∧
      Unmarshal (KType.tupleT tsTarget) bs = Except.error "Wrong tuple type" ∧
      (DecodableFields ts = true →
        Unmarshal (KType.tupleT ts) bs = Except.ok (GoVal.tupleV fields)) := by
  have h' := h
  simp only [WellTyped, Bool.and_eq_true] at h'
  obtain ⟨hwt, hlo⟩ := h'
  obtain ⟨bss, hm, hlens, hlequ⟩ := MarshalTuple_ok ts fields hwt
  have hflen : fields.len = ts.len := WellTypedTuple_len ts fields hwt
  have hmar : Marshal (.tupleV fields) = .ok (serItemsMsg bss) := by
    simp only [Marshal, hm]
  refine ⟨serItemsMsg bss, hmar, ?_, ?_⟩
  · have hcond : bss.length ≠ tsTarget.len := by
      rw [hlequ]
      omega
    simp only [Unmarshal, parseItemsMsg_serItemsMsg bss hlens, if_pos hcond]
  · intro hdec
    obtain ⟨bss', hm', -, -, hu⟩ := MarshalList_UnmarshalTuple ts fields hwt hdec
    rw [hm] at hm'
    injection hm' with hbss
    subst hbss
    have harity : ¬ bss.length ≠ ts.len := by simp [hlequ]
    simp only [Unmarshal, parseItemsMsg_serItemsMsg bss hlens, harity, if_false, hu]

theorem C8_Unmarshal_tuple_arity_witness :
    WellTyped (KType.tupleT c8Types) (GoVal.tupleV c8Fields) = true ∧
      c8Target.len ≠ c8Fields.len ∧ DecodableFields c8Types = true ∧
      ∃ bs, Marshal (GoVal.tupleV c8Fields) = MRes.ok bs ∧
        Unmarshal (KType.tupleT c8Target) bs = Except.error "Wrong tuple type" ∧
        (DecodableFields c8Types = true →
          Unmarshal (KType.tupleT c8Types) bs = Except.ok (GoVal.tupleV c8Fields)) :=
  ⟨by decide, by decide, by decide,
    C8_Unmarshal_tuple_arity c8Target c8Types c8Fields (by decide) (by decide)⟩

/-- C9: `Call` reads the first element of `CallMultiple`'s result list
without checking that the list is non-empty: a response with no
request-level error and zero results for the one-call request makes the
index-0 access go out of bounds (panic); whenever a successful
`CallMultiple` returns at least one result, `Call` never panics. -/
theorem C9_Call_index_zero :
    Call (.response { error := none, results := [] }) = CallOutcome.panicked ∧
    ∀ (w : WireOutcome) (rs : List ProcedureResult),
      CallMultiple w = .ok rs → rs ≠ [] → Call w ≠ CallOutcome.panicked := by
  constructor
  · rfl
  · intro w rs h hne
    simp only [Call, h]
    cases rs with
    | nil => exact absurd rfl hne
    | cons r rest => cases hr : r.error <;> simp [hr]

theorem C9_Call_index_zero_witness :
    CallMultiple c9Wire = Except.ok [c9Result] ∧
      ([c9Result] : List ProcedureResult) ≠ [] ∧
      Call c9Wire ≠ CallOutcome.panicked :=
  ⟨rfl, by decide, C9_Call_index_zero.2 c9Wire [c9Result] rfl (by decide)⟩

/-- C10: for every non-nil single-level pointer (element type not itself a
pointer), `Marshal` of the pointer equals `Marshal` of the pointee; a nil
single-level pointer drives `value.Elem().Interface()` into a panic, so
`Marshal` is total on pointer inputs only under the non-nil precondition;
and any pointer-to-pointer input, nil or not, is rejected with the
"Unsupported type" error. -/
theorem C10_Marshal_pointer :
    (∀ v : GoVal, v.isPtr = false → Marshal (GoVal.ptrTo v) = Marshal v) ∧
    Marshal (GoVal.ptrNil false) = MRes.panic ∧
    (∀ v : GoVal,
      Marshal (GoVal.ptrTo (GoVal.ptrTo v)) = MRes.err "Unsupported type") ∧
    (∀ e : Bool,
      Marshal (GoVal.ptrTo (GoVal.ptrNil e)) = MRes.err "Unsupported type") ∧
    Marshal (GoVal.ptrNil true) = MRes.err "Unsupported type" := by
  refine ⟨?_, rfl, ?_, ?_, rfl⟩
  · intro v hv
    simp [Marshal, hv]
  · intro v
    rfl
  · intro e
    rfl

theorem C10_Marshal_pointer_witness :
    (GoVal.u64V 5).isPtr = false ∧
      Marshal (GoVal.ptrTo (GoVal.u64V 5)) = Marshal (GoVal.u64V 5) :=
  ⟨rfl, C10_Marshal_pointer.1 (GoVal.u64V 5) rfl⟩

end KrpcGo

